import Mathlib

/-!
Verification of the ThreatGraph analytical pipeline against its
natural-language specification.

The Go sources are shallowly embedded: Go `time.Time` instants are modelled
as `Int` nanoseconds counted from Go's zero time (so `t.IsZero()` becomes
`t = 0`, and `t.Unix()` becomes floor-division by `10^9` shifted by the
Unix-epoch offset); Go `int64` record ids are `Int` together with the
explicit `hasRID` flag carried by the source's own `timeKey` struct; Go
strings are `String`; Go slices are `List`; Go maps that are only read
pointwise are functions, and Go maps that are iterated are materialised as
lists in insertion order, exactly as the source builds them.
`sort.Slice` calls are modelled by a deterministic insertion sort
parameterised by the source's comparison closure.
-/

namespace ThreatGraph

/-- Offset, in seconds, between Go's zero time (January 1, year 1 UTC) and
the Unix epoch: `time.Time.Unix()` of the zero time is `-62135596800`. -/
def unixToInternal : Int := 62135596800

/-- Model of `time.Time.IsZero`: instants are nanoseconds since Go's zero
time, so the zero time is `0`. -/
def timeIsZero (ts : Int) : Bool := ts == 0

/-- Model of `time.Time.Unix()`: seconds since the Unix epoch (floor). -/
def timeUnixSec (ts : Int) : Int := Int.fdiv ts 1000000000 - unixToInternal

/-- Convenience for building test instants from Unix seconds. -/
def goUnix (s : Int) : Int := (s + unixToInternal) * 1000000000

/-- Model of the `timeKey` struct of `internal/analyzer/temporal.go`:
a timestamp plus an optional parsed record id (`rid` is the Go zero value
`0` whenever `hasRID` is false, mirroring the struct layout). -/
structure timeKey where
  ts : Int
  rid : Int
  hasRID : Bool
deriving DecidableEq, Repr

/-- Model of `strconv.ParseInt(s, 10, 64)`: an optional sign followed by
at least one decimal digit, with the result required to fit in `int64`. -/
def parseInt64 (s : String) : Option Int :=
  let cs := s.toList
  let (neg, ds) : Bool × List Char :=
    match cs with
    | '-' :: rest => (true, rest)
    | '+' :: rest => (false, rest)
    | rest => (false, rest)
  if ds.isEmpty then none
  else if ds.all (fun c => c.isDigit) then
    let mag : Int := ds.foldl (fun acc c => acc * 10 + (Int.ofNat c.toNat - 48)) 0
    let v : Int := if neg then -mag else mag
    if -(2 ^ 63) ≤ v ∧ v < 2 ^ 63 then some v else none
  else none

/-- Model of `buildTimeKey` (temporal.go): attempt an int64 parse of the
record id; on failure the key carries no rid. -/
def buildTimeKey (ts : Int) (rid : String) : timeKey :=
  if rid = "" then { ts := ts, rid := 0, hasRID := false }
  else
    match parseInt64 rid with
    | none => { ts := ts, rid := 0, hasRID := false }
    | some v => { ts := ts, rid := v, hasRID := true }

/-- Model of `timeKeyLT` (temporal.go). -/
def timeKeyLT (a b : timeKey) : Bool :=
  if a.ts < b.ts then true
  else if b.ts < a.ts then false
  else if !a.hasRID || !b.hasRID then false
  else a.rid < b.rid

/-- Model of `timeKeyLE` (temporal.go). -/
def timeKeyLE (a b : timeKey) : Bool :=
  if a.ts < b.ts then true
  else if b.ts < a.ts then false
  else if !a.hasRID || !b.hasRID then true
  else a.rid ≤ b.rid

/-- Model of `timeKeyGE` (temporal.go). -/
def timeKeyGE (a b : timeKey) : Bool :=
  if b.ts < a.ts then true
  else if a.ts < b.ts then false
  else if !a.hasRID || !b.hasRID then true
  else b.rid ≤ a.rid

theorem timeKeyLT_iff (a b : timeKey) :
    timeKeyLT a b = true ↔
      a.ts < b.ts ∨
        (a.ts = b.ts ∧ a.hasRID = true ∧ b.hasRID = true ∧ a.rid < b.rid) := by
  unfold timeKeyLT
  split_ifs with h1 h2 h3
  · simp only [true_iff]
    exact Or.inl h1
  · simp only [false_iff]
    rintro (h | ⟨he, -, -, -⟩) <;> omega
  · simp only [false_iff]
    rintro (h | ⟨he, ha, hb, hr⟩)
    · omega
    · rw [ha, hb] at h3
      simp at h3
  · simp only [Bool.or_eq_true, Bool.not_eq_true'] at h3
    push_neg at h3
    have ha : a.hasRID = true := Bool.ne_false_iff.mp h3.1
    have hb : b.hasRID = true := Bool.ne_false_iff.mp h3.2
    simp only [decide_eq_true_eq]
    constructor
    · intro h
      exact Or.inr ⟨by omega, ha, hb, h⟩
    · rintro (h | ⟨-, -, -, h⟩)
      · omega
      · exact h

theorem timeKeyLE_iff (a b : timeKey) :
    timeKeyLE a b = true ↔
      a.ts < b.ts ∨
        (a.ts = b.ts ∧
          (a.hasRID = false ∨ b.hasRID = false ∨ a.rid ≤ b.rid)) := by
  unfold timeKeyLE
  split_ifs with h1 h2 h3
  · simp only [true_iff]
    exact Or.inl h1
  · simp only [false_iff]
    rintro (h | ⟨he, -⟩) <;> omega
  · simp only [true_iff]
    simp only [Bool.or_eq_true, Bool.not_eq_true'] at h3
    exact Or.inr ⟨by omega, by rcases h3 with h | h; exact Or.inl h; exact Or.inr (Or.inl h)⟩
  · simp only [Bool.or_eq_true, Bool.not_eq_true'] at h3
    push_neg at h3
    have ha : a.hasRID = true := Bool.ne_false_iff.mp h3.1
    have hb : b.hasRID = true := Bool.ne_false_iff.mp h3.2
    simp only [decide_eq_true_eq]
    constructor
    · intro h
      exact Or.inr ⟨by omega, Or.inr (Or.inr h)⟩
    · rintro (h | ⟨-, h | h | h⟩)
      · omega
      · rw [ha] at h
        simp at h
      · rw [hb] at h
        simp at h
      · exact h

theorem timeKeyGE_iff (a b : timeKey) :
    timeKeyGE a b = true ↔
      b.ts < a.ts ∨
        (a.ts = b.ts ∧
          (a.hasRID = false ∨ b.hasRID = false ∨ b.rid ≤ a.rid)) := by
  unfold timeKeyGE
  split_ifs with h1 h2 h3
  · simp only [true_iff]
    exact Or.inl h1
  · simp only [false_iff]
    rintro (h | ⟨he, -⟩) <;> omega
  · simp only [true_iff]
    simp only [Bool.or_eq_true, Bool.not_eq_true'] at h3
    exact Or.inr ⟨by omega, by rcases h3 with h | h; exact Or.inl h; exact Or.inr (Or.inl h)⟩
  · simp only [Bool.or_eq_true, Bool.not_eq_true'] at h3
    push_neg at h3
    have ha : a.hasRID = true := Bool.ne_false_iff.mp h3.1
    have hb : b.hasRID = true := Bool.ne_false_iff.mp h3.2
    simp only [decide_eq_true_eq]
    constructor
    · intro h
      exact Or.inr ⟨by omega, Or.inr (Or.inr h)⟩
    · rintro (h | ⟨-, h | h | h⟩)
      · omega
      · rw [ha] at h
        simp at h
      · rw [hb] at h
        simp at h
      · exact h

theorem timeKeyGE_eq_not_timeKeyLT (a b : timeKey) :
    timeKeyGE a b = !timeKeyLT a b := by
  have hge := timeKeyGE_iff a b
  have hlt := timeKeyLT_iff a b
  cases hL : timeKeyLT a b with
  | false =>
    simp only [Bool.not_false]
    rw [hge]
    have hnot : ¬(a.ts < b.ts ∨
        (a.ts = b.ts ∧ a.hasRID = true ∧ b.hasRID = true ∧ a.rid < b.rid)) := by
      intro hc
      rw [hlt.mpr hc] at hL
      cases hL
    push_neg at hnot
    obtain ⟨h1, h2⟩ := hnot
    by_cases hba : b.ts < a.ts
    · exact Or.inl hba
    · have heq : a.ts = b.ts := by omega
      refine Or.inr ⟨heq, ?_⟩
      cases ha : a.hasRID
      · exact Or.inl rfl
      · cases hb : b.hasRID
        · exact Or.inr (Or.inl rfl)
        · refine Or.inr (Or.inr ?_)
          have := h2 heq ha hb
          omega
  | true =>
    simp only [Bool.not_true]
    cases hG : timeKeyGE a b with
    | false => rfl
    | true =>
      exfalso
      have hg := hge.mp hG
      have hl := hlt.mp hL
      rcases hl with h | ⟨he, ha, hb, hr⟩ <;> rcases hg with h2 | ⟨he2, hf⟩
      · omega
      · omega
      · omega
      · rcases hf with hf | hf | hf
        · rw [ha] at hf
          cases hf
        · rw [hb] at hf
          cases hf
        · omega

theorem timeKeyLE_eq_not_timeKeyLT (a b : timeKey) :
    timeKeyLE a b = !timeKeyLT b a := by
  have hle := timeKeyLE_iff a b
  have hlt := timeKeyLT_iff b a
  cases hL : timeKeyLT b a with
  | false =>
    simp only [Bool.not_false]
    rw [hle]
    have hnot : ¬(b.ts < a.ts ∨
        (b.ts = a.ts ∧ b.hasRID = true ∧ a.hasRID = true ∧ b.rid < a.rid)) := by
      intro hc
      rw [hlt.mpr hc] at hL
      cases hL
    push_neg at hnot
    obtain ⟨h1, h2⟩ := hnot
    by_cases hab : a.ts < b.ts
    · exact Or.inl hab
    · have heq : a.ts = b.ts := by omega
      refine Or.inr ⟨heq, ?_⟩
      cases ha : a.hasRID
      · exact Or.inl rfl
      · cases hb : b.hasRID
        · exact Or.inr (Or.inl rfl)
        · refine Or.inr (Or.inr ?_)
          have := h2 heq.symm hb ha
          omega
  | true =>
    simp only [Bool.not_true]
    cases hG : timeKeyLE a b with
    | false => rfl
    | true =>
      exfalso
      have hg := hle.mp hG
      have hl := hlt.mp hL
      rcases hl with h | ⟨he, hb, ha, hr⟩ <;> rcases hg with h2 | ⟨he2, hf⟩
      · omega
      · omega
      · omega
      · rcases hf with hf | hf | hf
        · rw [ha] at hf
          cases hf
        · rw [hb] at hf
          cases hf
        · omega

theorem timeKeyGE_eq_timeKeyLE_swap (a b : timeKey) :
    timeKeyGE a b = timeKeyLE b a := by
  rw [timeKeyGE_eq_not_timeKeyLT, timeKeyLE_eq_not_timeKeyLT]

theorem timeKeyLT_asymm {a b : timeKey}
    (h : timeKeyLT a b = true) : timeKeyLT b a = false := by
  rw [timeKeyLT_iff] at h
  cases hba : timeKeyLT b a with
  | false => rfl
  | true =>
    exfalso
    rw [timeKeyLT_iff] at hba
    rcases h with h | ⟨he, -, -, hr⟩ <;> rcases hba with h2 | ⟨he2, -, -, hr2⟩ <;> omega

theorem timeKeyLT_trans {a b c : timeKey}
    (hab : timeKeyLT a b = true) (hbc : timeKeyLT b c = true) :
    timeKeyLT a c = true := by
  rw [timeKeyLT_iff] at *
  rcases hab with h | ⟨he, ha, hb, hr⟩ <;> rcases hbc with h2 | ⟨he2, hb2, hc2, hr2⟩
  · exact Or.inl (by omega)
  · exact Or.inl (by omega)
  · exact Or.inl (by omega)
  · exact Or.inr ⟨by omega, ha, hc2, by omega⟩

theorem timeKeyLE_trans_side {a b c : timeKey}
    (hside : a.hasRID = false ∨ b.hasRID = true ∨ c.hasRID = false)
    (hab : timeKeyLE a b = true) (hbc : timeKeyLE b c = true) :
    timeKeyLE a c = true := by
  rw [timeKeyLE_iff] at *
  rcases hab with h | ⟨he, hf⟩ <;> rcases hbc with h2 | ⟨he2, hf2⟩
  · exact Or.inl (by omega)
  · exact Or.inl (by omega)
  · exact Or.inl (by omega)
  · refine Or.inr ⟨by omega, ?_⟩
    rcases hside with hs | hs | hs
    · exact Or.inl hs
    · rcases hf with hf | hf | hf
      · exact Or.inl hf
      · rw [hs] at hf
        cases hf
      · rcases hf2 with hg | hg | hg
        · rw [hs] at hg
          cases hg
        · exact Or.inr (Or.inl hg)
        · exact Or.inr (Or.inr (by omega))
    · exact Or.inr (Or.inl hs)

/-- C2 (counterexample): with keys of equal timestamp where the middle key
lacks a record id, `timeKeyLE` (and symmetrically `timeKeyGE`) is not
transitive, so the three comparators do not form a consistent total order
over all time-keys as the claim states. -/
theorem timeKey_total_order_counterexample :
    timeKeyLE { ts := 0, rid := 1, hasRID := true } { ts := 0, rid := 0, hasRID := false } = true ∧
    timeKeyLE { ts := 0, rid := 0, hasRID := false } { ts := 0, rid := 0, hasRID := true } = true ∧
    timeKeyLE { ts := 0, rid := 1, hasRID := true } { ts := 0, rid := 0, hasRID := true } = false ∧
    timeKeyGE { ts := 0, rid := 0, hasRID := true } { ts := 0, rid := 0, hasRID := false } = true ∧
    timeKeyGE { ts := 0, rid := 0, hasRID := false } { ts := 0, rid := 1, hasRID := true } = true ∧
    timeKeyGE { ts := 0, rid := 0, hasRID := true } { ts := 0, rid := 1, hasRID := true } = false := by
  decide

/-- C2 (amended): `timeKeyLT` is transitive and asymmetric on all keys and
is consistent with `timeKeyLE` and `timeKeyGE` (`ge a b = ¬ lt a b` and
`le a b = ¬ lt b a`, hence `lt` implies `le`); equal keys satisfy
`le ∧ ge ∧ ¬lt`; and `timeKeyLE`/`timeKeyGE` are transitive on every
triple except those whose middle key lacks a record id while both outer
keys carry one (equivalently, whenever the middle key carries a rid or one
of the outer keys lacks one). -/
theorem timeKey_order_amended :
    (∀ a b c : timeKey, timeKeyLT a b = true → timeKeyLT b c = true →
      timeKeyLT a c = true) ∧
    (∀ a b : timeKey, timeKeyLT a b = true → timeKeyLT b a = false) ∧
    (∀ a b : timeKey, timeKeyGE a b = !timeKeyLT a b) ∧
    (∀ a b : timeKey, timeKeyLE a b = !timeKeyLT b a) ∧
    (∀ a b : timeKey, timeKeyLT a b = true → timeKeyLE a b = true) ∧
    (∀ a : timeKey, timeKeyLE a a = true ∧ timeKeyGE a a = true ∧
      timeKeyLT a a = false) ∧
    (∀ a b c : timeKey,
      (a.hasRID = false ∨ b.hasRID = true ∨ c.hasRID = false) →
      timeKeyLE a b = true → timeKeyLE b c = true → timeKeyLE a c = true) ∧
    (∀ a b c : timeKey,
      (a.hasRID = false ∨ b.hasRID = true ∨ c.hasRID = false) →
      timeKeyGE a b = true → timeKeyGE b c = true → timeKeyGE a c = true) := by
  have hrefl : ∀ a : timeKey, timeKeyLT a a = false := by
    intro a
    cases h : timeKeyLT a a with
    | false => rfl
    | true => cases (timeKeyLT_asymm h).symm.trans h
  refine ⟨fun a b c hab hbc => timeKeyLT_trans hab hbc,
    fun a b h => timeKeyLT_asymm h,
    timeKeyGE_eq_not_timeKeyLT,
    timeKeyLE_eq_not_timeKeyLT, ?_, ?_, ?_, ?_⟩
  · intro a b h
    rw [timeKeyLE_eq_not_timeKeyLT, timeKeyLT_asymm h]
    rfl
  · intro a
    refine ⟨?_, ?_, hrefl a⟩
    · rw [timeKeyLE_eq_not_timeKeyLT, hrefl a]
      rfl
    · rw [timeKeyGE_eq_not_timeKeyLT, hrefl a]
      rfl
  · exact fun a b c hside hab hbc => timeKeyLE_trans_side hside hab hbc
  · intro a b c hside hab hbc
    rw [timeKeyGE_eq_timeKeyLE_swap] at *
    refine timeKeyLE_trans_side ?_ hbc hab
    rcases hside with h | h | h
    · exact Or.inr (Or.inr h)
    · exact Or.inr (Or.inl h)
    · exact Or.inl h

/-- C2 (witness): the amended order laws applied at concrete keys. -/
theorem timeKey_order_amended_witness :
    timeKeyLE { ts := 0, rid := 1, hasRID := true } { ts := 1, rid := 0, hasRID := false } = true ∧
    timeKeyLE { ts := 0, rid := 3, hasRID := true } { ts := 2, rid := 9, hasRID := true } = true := by
  constructor
  · exact timeKey_order_amended.2.2.2.2.1 _ _ (by decide)
  · exact timeKey_order_amended.2.2.2.2.2.2.1
      { ts := 0, rid := 3, hasRID := true } { ts := 1, rid := 5, hasRID := true }
      { ts := 2, rid := 9, hasRID := true } (Or.inr (Or.inl rfl))
      (by decide) (by decide)

/-! ### A deterministic model of `sort.Slice`

Go's `sort.Slice(xs, less)` is modelled by an insertion sort driven by the
same `less` closure.  For the valid (asymmetric, transitive) comparators
used on the verified paths this produces a list sorted by `less`, which is
all `sort.Slice` guarantees. -/

def insertBy {α : Type} (lt : α → α → Bool) (x : α) : List α → List α
  | [] => [x]
  | y :: ys => if lt x y then x :: y :: ys else y :: insertBy lt x ys

def sortBy {α : Type} (lt : α → α → Bool) : List α → List α
  | [] => []
  | x :: xs => insertBy lt x (sortBy lt xs)

theorem insertBy_perm {α : Type} (lt : α → α → Bool) (x : α) :
    ∀ l : List α, List.Perm (insertBy lt x l) (x :: l)
  | [] => List.Perm.refl _
  | y :: ys => by
    unfold insertBy
    split
    · exact List.Perm.refl _
    · exact List.Perm.trans ((insertBy_perm lt x ys).cons y) (List.Perm.swap x y ys)

theorem sortBy_perm {α : Type} (lt : α → α → Bool) :
    ∀ l : List α, List.Perm (sortBy lt l) l
  | [] => List.Perm.refl _
  | x :: xs =>
    List.Perm.trans (insertBy_perm lt x (sortBy lt xs)) ((sortBy_perm lt xs).cons x)

theorem mem_sortBy {α : Type} {lt : α → α → Bool} {a : α} {l : List α} :
    a ∈ sortBy lt l ↔ a ∈ l :=
  (sortBy_perm lt l).mem_iff

theorem head?_insertBy {α : Type} (lt : α → α → Bool) (x : α) (l : List α) :
    (insertBy lt x l).head? = some x ∨ (insertBy lt x l).head? = l.head? := by
  cases l with
  | nil => exact Or.inl rfl
  | cons y ys =>
    unfold insertBy
    split
    · exact Or.inl rfl
    · exact Or.inr rfl

theorem chain'_insertBy {α : Type} {lt : α → α → Bool}
    (hasym : ∀ a b, lt a b = true → lt b a = false) (x : α) :
    ∀ l : List α, List.Chain' (fun a b => lt b a = false) l →
      List.Chain' (fun a b => lt b a = false) (insertBy lt x l)
  | [], _ => List.chain'_singleton x
  | y :: ys, h => by
    unfold insertBy
    split
    · next hxy =>
      exact List.Chain'.cons (hasym _ _ hxy) h
    · next hxy =>
      have htail : List.Chain' (fun a b => lt b a = false) ys :=
        (List.chain'_cons'.mp h).2
      refine List.chain'_cons'.mpr ⟨?_, chain'_insertBy hasym x ys htail⟩
      intro b hb
      rcases head?_insertBy lt x ys with hh | hh
      · rw [hh] at hb
        cases hb
        exact Bool.not_eq_true (lt x y) ▸ Bool.of_not_eq_true hxy
      · rw [hh] at hb
        exact (List.chain'_cons'.mp h).1 b hb

theorem chain'_sortBy {α : Type} {lt : α → α → Bool}
    (hasym : ∀ a b, lt a b = true → lt b a = false) :
    ∀ l : List α, List.Chain' (fun a b => lt b a = false) (sortBy lt l)
  | [] => List.chain'_nil
  | x :: xs => chain'_insertBy hasym x (sortBy lt xs) (chain'_sortBy hasym xs)

/-- Model of `strings.TrimSpace` (kernel-reducible; Go trims Unicode
white space, of which the ASCII cases occur here). -/
def goTrimSpace (s : String) : String :=
  ⟨((s.toList.dropWhile Char.isWhitespace).reverse.dropWhile
      Char.isWhitespace).reverse⟩

/-- Model of `strings.ToLower` (kernel-reducible, ASCII case mapping). -/
def goToLower (s : String) : String :=
  ⟨s.toList.map Char.toLower⟩

/-- Lexicographic comparison of character lists by code point. -/
def charsLT : List Char → List Char → Bool
  | [], [] => false
  | [], _ :: _ => true
  | _ :: _, [] => false
  | a :: as, b :: bs =>
      if a.toNat < b.toNat then true
      else if b.toNat < a.toNat then false
      else charsLT as bs

/-- Model of Go `<` on strings: byte-wise comparison of the UTF-8
encodings, which coincides with code-point lexicographic order. -/
def goStrLT (a b : String) : Bool := charsLT a.toList b.toList

/-- Boolean string comparison used to model Go `<` on strings. -/
def strLess (a b : String) : Bool := goStrLT a b

/-! ### Data model (`pkg/models`) -/

/-- Model of `models.IoaTag`. -/
structure IoaTag where
  id : String
  name : String
  severity : String
  tactic : String
  technique : String
deriving DecidableEq, Repr, Inhabited

/-- Model of `models.AdjacencyRow`.  The Go field `Type` is renamed
`rtype`.  The free-form debug payload `Data` is not modelled: no operation
verified here reads or writes it. -/
structure AdjacencyRow where
  timestamp : Int
  recordType : String
  rtype : String
  vertexID : String
  adjacentID : String
  eventID : Int
  hostname : String
  agentID : String
  recordID : String
  ioaTags : List IoaTag
deriving DecidableEq, Repr, Inhabited

/-! ### Analyzer data model (`internal/analyzer/rules.go`) -/

/-- Model of `analyzer.AlertEvent` (the Go fields `From`/`To`/`Type` are
renamed `fromV`/`toV`/`atype`; the `Row` back-pointer is the row value). -/
structure AlertEvent where
  host : String
  fromV : String
  toV : String
  atype : String
  ts : Int
  recordID : String
  ioaTags : List IoaTag
  row : AdjacencyRow
deriving DecidableEq, Repr, Inhabited

/-- Model of `analyzer.IIPGraph`. -/
structure IIPGraph where
  host : String
  root : String
  iipTS : Int
  iipRecordID : String
  alertEvents : List AlertEvent
  edges : List AdjacencyRow
deriving DecidableEq, Repr, Inhabited

/-- Model of the analyzer's `edgeRef` (temporal.go): a row together with
its precomputed time key. -/
structure edgeRef where
  row : AdjacencyRow
  tk : timeKey
deriving DecidableEq, Repr

def rowTK (r : AdjacencyRow) : timeKey := buildTimeKey r.timestamp r.recordID

/-- Model of `hostForRow` (rules.go). -/
def hostForRow (r : AdjacencyRow) : String :=
  let h := goTrimSpace r.hostname
  if h ≠ "" then h
  else
    let a := goTrimSpace r.agentID
    if a ≠ "" then a else "unknown"

/-- Model of `isAlertEdge` (rules.go): an edge row with non-empty tags. -/
def isAlertEdge (r : AdjacencyRow) : Bool :=
  r.recordType == "edge" && !r.ioaTags.isEmpty

/-- Model of `edgeIdentityKey` (rules.go).  The Go code renders the UTC
timestamp with `time.RFC3339Nano`, an injective rendering of the instant;
it is modelled by the (equally injective) decimal rendering. -/
def edgeIdentityKey (r : AdjacencyRow) : String :=
  r.hostname ++ "|" ++ r.agentID ++ "|" ++ r.recordID ++ "|" ++ r.vertexID ++
    "|" ++ r.adjacentID ++ "|" ++ r.rtype ++ "|" ++ toString r.timestamp

/-- Model of `alertIdentity` (rules.go); every `AlertEvent` built by this
code carries its backing row, so the non-nil branch always applies. -/
def alertIdentity (ev : AlertEvent) : String := edgeIdentityKey ev.row

/-- Model of `compareAlertEvents` (rules.go). -/
def compareAlertEvents (a b : AlertEvent) : Int :=
  if a.host ≠ b.host then (if goStrLT a.host b.host then -1 else 1)
  else
    let atk := buildTimeKey a.ts a.recordID
    let btk := buildTimeKey b.ts b.recordID
    if timeKeyLT atk btk then -1
    else if timeKeyLT btk atk then 1
    else if a.fromV ≠ b.fromV then (if goStrLT a.fromV b.fromV then -1 else 1)
    else if a.toV ≠ b.toV then (if goStrLT a.toV b.toV then -1 else 1)
    else if a.atype ≠ b.atype then (if goStrLT a.atype b.atype then -1 else 1)
    else 0

/-- Comparison closure passed to `sort.Slice` over alert events. -/
def alertLess (a b : AlertEvent) : Bool := compareAlertEvents a b < 0

/-- Construction of an `AlertEvent` from an edge row (rules.go, both in
`CollectAlertEvents` with `host = hostForRow row` and in `buildIIPGraph`
with the seed's host). -/
def mkAlertEvent (host : String) (r : AdjacencyRow) : AlertEvent :=
  { host := host, fromV := r.vertexID, toV := r.adjacentID, atype := r.rtype,
    ts := r.timestamp, recordID := r.recordID, ioaTags := r.ioaTags, row := r }

/-- Model of `CollectAlertEvents` (rules.go). -/
def CollectAlertEvents (rows : List AdjacencyRow) : List AlertEvent :=
  sortBy alertLess (rows.filterMap (fun r =>
    if r.recordType == "edge" && !r.ioaTags.isEmpty && !(r.vertexID == "") &&
        !(r.adjacentID == "") && !(timeIsZero r.timestamp)
    then some (mkAlertEvent (hostForRow r) r) else none))

/-- Edge rows admitted into the forward/reverse indexes
(`buildIIPIndex`, rules.go). -/
def validEdgeRow (r : AdjacencyRow) : Bool :=
  r.recordType == "edge" && !(r.vertexID == "") && !(r.adjacentID == "") &&
    !(timeIsZero r.timestamp)

/-- Comparison closure passed to `sort.Slice` over edge refs
(`timeKeyLE` is what the source passes as the less function). -/
def refLE (x y : edgeRef) : Bool := timeKeyLE x.tk y.tk

/-- Model of `idx.forward[host][src]` (rules.go `buildIIPIndex`): rows are
appended in input order and each bucket is sorted with `timeKeyLE`. -/
def forwardRefs (rows : List AdjacencyRow) (host src : String) : List edgeRef :=
  sortBy refLE (((rows.filter (fun r =>
    validEdgeRow r && hostForRow r == host && r.vertexID == src))).map
      (fun r => { row := r, tk := rowTK r }))

/-- Model of `idx.reverse[host][dst]` (rules.go `buildIIPIndex`). -/
def reverseRefs (rows : List AdjacencyRow) (host dst : String) : List edgeRef :=
  sortBy refLE (((rows.filter (fun r =>
    validEdgeRow r && hostForRow r == host && r.adjacentID == dst))).map
      (fun r => { row := r, tk := rowTK r }))

/-- Model of `idx.alertsByHost[host]` (rules.go `buildIIPIndex`). -/
def alertsByHost (alerts : List AlertEvent) (host : String) : List AlertEvent :=
  sortBy alertLess (alerts.filter (fun ev => ev.host == host))

/-- Hosts of `idx.alertsByHost`, iterated in `sort.Strings` order
(rules.go `BuildIIPGraphs`). -/
def uniqueAlertHosts (alerts : List AlertEvent) : List String :=
  sortBy strLess (alerts.foldl
    (fun acc ev => if ev.host ∈ acc then acc else acc ++ [ev.host]) [])

/-! ### Reachability pre-marking (`markCanReachAlert`, rules.go) -/

/-- Model of the `push` closure of `markCanReachAlert`: mark and enqueue a
`(host, vertex)` pair unless empty or already marked. -/
def canReachPush (marked queue : List (String × String)) (h v : String) :
    List (String × String) × List (String × String) :=
  if h == "" || v == "" then (marked, queue)
  else if (h, v) ∈ marked then (marked, queue)
  else (marked ++ [(h, v)], queue ++ [(h, v)])

/-- Worklist of `markCanReachAlert`: expand marked pairs backwards through
the reverse index.  The fuel argument bounds the loop; any fuel at least
the number of distinct markable pairs yields the full BFS. -/
def markCanReachLoop (rev : String → String → List edgeRef) :
    Nat → List (String × String) → List (String × String) →
      List (String × String)
  | 0, _, marked => marked
  | _ + 1, [], marked => marked
  | fuel + 1, (h, v) :: rest, marked =>
      let step := (rev h v).foldl
        (fun (acc : List (String × String) × List (String × String)) er =>
          canReachPush acc.1 acc.2 h er.row.vertexID) (marked, [])
      markCanReachLoop rev fuel (rest ++ step.2) step.1

/-- Model of `markCanReachAlert` (rules.go): seed with the endpoints of
every alert edge, then expand by reverse-index BFS. -/
def markCanReachAlert (rev : String → String → List edgeRef)
    (alerts : List AlertEvent) (fuel : Nat) : List (String × String) :=
  let seed := alerts.foldl
    (fun (acc : List (String × String) × List (String × String)) ev =>
      let acc1 := canReachPush acc.1 acc.2 ev.host ev.fromV
      canReachPush acc1.1 acc1.2 ev.host ev.toV) ([], [])
  markCanReachLoop rev fuel seed.2 seed.1

/-! ### Backward earlier-alert test (`backwardHasEarlierAlert`, rules.go) -/

/-- Scan of one reverse adjacency list inside the backward BFS: the list
is scanned in order, `break`-ing at the first edge whose key is not
strictly below the seed key; `none` signals that an earlier alert edge was
found. -/
def backScanEdges (seedTK : timeKey) :
    List edgeRef → List String → List String →
      Option (List String × List String)
  | [], visited, newQ => some (visited, newQ)
  | er :: rest, visited, newQ =>
      if !(timeKeyLT er.tk seedTK) then some (visited, newQ)
      else if isAlertEdge er.row then none
      else
        let prev := er.row.vertexID
        if prev ∈ visited then backScanEdges seedTK rest visited newQ
        else backScanEdges seedTK rest (visited ++ [prev]) (newQ ++ [prev])

/-- Worklist of the backward BFS of `backwardHasEarlierAlert`. -/
def backLoop (rev : String → List edgeRef) (seedTK : timeKey) :
    Nat → List String → List String → Bool
  | 0, _, _ => false
  | _ + 1, [], _ => false
  | fuel + 1, cur :: rest, visited =>
      match backScanEdges seedTK (rev cur) visited [] with
      | none => true
      | some (visited2, newQ) => backLoop rev seedTK fuel (rest ++ newQ) visited2

/-- First-match lookup in the memo cache (a Go `map[string]bool` whose
inserts are modelled by prepending). -/
def lookupCache : List (String × Bool) → String → Option Bool
  | [], _ => none
  | (k, v) :: rest, key => if k == key then some v else lookupCache rest key

/-- Model of `backwardHasEarlierAlert` (rules.go), returning the result
together with the updated memo cache.  The cache key is
`host + "|" + from + "|" + bucket` with `bucket = ts.UTC().Unix()/60`
(Go integer division truncates toward zero, `Int.div`). -/
def backwardHasEarlierAlert (rows : List AdjacencyRow) (fuel : Nat)
    (seed : AlertEvent) (cache : List (String × Bool)) :
    Bool × List (String × Bool) :=
  let seedTK := buildTimeKey seed.ts seed.recordID
  let bucket := Int.tdiv (timeUnixSec seed.ts) 60
  let cacheKey := seed.host ++ "|" ++ seed.fromV ++ "|" ++ toString bucket
  match lookupCache cache cacheKey with
  | some v => (v, cache)
  | none =>
      let res := backLoop (fun v => reverseRefs rows seed.host v) seedTK fuel
        [seed.fromV] [seed.fromV]
      (res, (cacheKey, res) :: cache)

/-! ### Forward IIP expansion (`buildIIPGraph`, rules.go) -/

/-- Accumulator of the forward BFS of `buildIIPGraph`: visited vertices,
visited edge identities, collected edges and alerts, and the vertices
newly enqueued while scanning the current adjacency list. -/
structure iipAcc where
  seenV : List String
  seenE : List String
  edges : List AdjacencyRow
  alerts : List AlertEvent
  newQ : List String
deriving DecidableEq, Repr

/-- Edge-identity dedup step of `buildIIPGraph`'s BFS: record the edge
(and its alert event when tagged) unless its identity was seen. -/
def iipTake (host : String) (er : edgeRef) (acc : iipAcc) : iipAcc :=
  if edgeIdentityKey er.row ∈ acc.seenE then acc
  else
    { acc with
      seenE := acc.seenE ++ [edgeIdentityKey er.row],
      edges := acc.edges ++ [er.row],
      alerts := acc.alerts ++
        (if isAlertEdge er.row then [mkAlertEvent host er.row] else []) }

/-- Vertex dedup and enqueue step of `buildIIPGraph`'s BFS. -/
def iipVisit (er : edgeRef) (acc : iipAcc) : iipAcc :=
  if er.row.adjacentID ∈ acc.seenV then acc
  else { acc with
         seenV := acc.seenV ++ [er.row.adjacentID],
         newQ := acc.newQ ++ [er.row.adjacentID] }

/-- Scan of one forward adjacency list inside `buildIIPGraph`'s BFS:
edges are skipped unless at or after the seed key and either alerts
themselves or able to reach an alert. -/
def iipScanEdges (host : String) (seedTK : timeKey) (canReach : String → Bool) :
    List edgeRef → iipAcc → iipAcc
  | [], acc => acc
  | er :: rest, acc =>
      if !(timeKeyGE er.tk seedTK) then iipScanEdges host seedTK canReach rest acc
      else if !(isAlertEdge er.row) && !(canReach er.row.adjacentID) then
        iipScanEdges host seedTK canReach rest acc
      else iipScanEdges host seedTK canReach rest (iipVisit er (iipTake host er acc))

/-- Worklist of `buildIIPGraph`'s forward BFS. -/
def iipLoop (fwd : String → List edgeRef) (host : String) (seedTK : timeKey)
    (canReach : String → Bool) : Nat → List String → iipAcc → iipAcc
  | 0, _, acc => acc
  | _ + 1, [], acc => acc
  | fuel + 1, cur :: rest, acc =>
      let acc2 := iipScanEdges host seedTK canReach (fwd cur) { acc with newQ := [] }
      iipLoop fwd host seedTK canReach fuel (rest ++ acc2.newQ) { acc2 with newQ := [] }

/-- Comparison closure of the final edge sort in `buildIIPGraph`. -/
def edgeLess (a b : AdjacencyRow) : Bool :=
  let atk := rowTK a
  let btk := rowTK b
  if timeKeyLT atk btk then true
  else if timeKeyLT btk atk then false
  else if !(a.vertexID == b.vertexID) then goStrLT a.vertexID b.vertexID
  else if !(a.adjacentID == b.adjacentID) then goStrLT a.adjacentID b.adjacentID
  else goStrLT a.rtype b.rtype

/-- Model of `buildIIPGraph` (rules.go): forward BFS from the seed's
source vertex, keeping edges at or after the seed key that are alerts or
can reach an alert. -/
def buildIIPGraph (rows : List AdjacencyRow)
    (canReachMarks : List (String × String)) (fuel : Nat)
    (seed : AlertEvent) : IIPGraph :=
  let seedTK := buildTimeKey seed.ts seed.recordID
  let host := seed.host
  let canReach : String → Bool := fun v => decide ((host, v) ∈ canReachMarks)
  let acc0 : iipAcc :=
    { seenV := [seed.fromV], seenE := [], edges := [], alerts := [], newQ := [] }
  let acc := iipLoop (fun v => forwardRefs rows host v) host seedTK canReach fuel
    [seed.fromV] acc0
  { host := host, root := seed.fromV, iipTS := seed.ts,
    iipRecordID := seed.recordID,
    alertEvents := sortBy alertLess acc.alerts,
    edges := sortBy edgeLess acc.edges }

/-! ### IIP graph construction (`BuildIIPGraphs`, rules.go) -/

/-- Comparison closure of the final sort in `BuildIIPGraphs`: host, then
the (iip_ts, iip_record_id) time key, then root. -/
def iipLess (a b : IIPGraph) : Bool :=
  if a.host ≠ b.host then goStrLT a.host b.host
  else if timeKeyLT (buildTimeKey a.iipTS a.iipRecordID)
      (buildTimeKey b.iipTS b.iipRecordID) then true
  else if timeKeyLT (buildTimeKey b.iipTS b.iipRecordID)
      (buildTimeKey a.iipTS a.iipRecordID) then false
  else goStrLT a.root b.root

/-- State of the seed loop of `BuildIIPGraphs`: the emitted graphs, the
`seenAlert` identity set, and the backtrace memo cache. -/
structure iipState where
  out : List IIPGraph
  seen : List String
  cache : List (String × Bool)
deriving Repr

/-- One iteration of the seed loop of `BuildIIPGraphs`. -/
def iipSeedStep (rows : List AdjacencyRow)
    (marks : List (String × String)) (fuel : Nat)
    (st : iipState) (a : AlertEvent) : iipState :=
  if alertIdentity a ∈ st.seen then st
  else
    let bres := backwardHasEarlierAlert rows fuel a st.cache
    if bres.1 then { st with cache := bres.2 }
    else
      let iip := buildIIPGraph rows marks fuel a
      if iip.alertEvents.isEmpty then { st with cache := bres.2 }
      else { out := st.out ++ [iip],
             seen := st.seen ++ iip.alertEvents.map alertIdentity,
             cache := bres.2 }

/-- Model of `BuildIIPGraphs` (rules.go).  The BFS fuel
`rows.length + 2*alerts.length + 1` dominates every queue the Go loops can
build, so the bounded loops agree with the unbounded originals. -/
def BuildIIPGraphs (rows : List AdjacencyRow) : List IIPGraph :=
  let alerts := CollectAlertEvents rows
  if alerts.isEmpty then []
  else
    let fuel := rows.length + 2 * alerts.length + 1
    let marks := markCanReachAlert (fun h v => reverseRefs rows h v) alerts fuel
    let hosts := uniqueAlertHosts alerts
    let final := hosts.foldl
      (fun st host => (alertsByHost alerts host).foldl
        (iipSeedStep rows marks fuel) st)
      { out := [], seen := [], cache := [] }
    sortBy iipLess final.out

/-! ### TPG construction (`BuildTPG`, rules.go) -/

/-- Model of `firstTechniqueAndName` (rules.go). -/
def firstTechniqueAndName : List IoaTag → String × String
  | [] => ("", "")
  | tag :: rest =>
      let tech := goTrimSpace tag.technique
      let name := goTrimSpace tag.name
      if !(tech == "") || !(name == "") then (tech, name)
      else firstTechniqueAndName rest

/-- Model of `analyzer.TPGSequenceEdge`.  Go stores `int` indexes; they
are always list positions here, hence `Nat` (the `< 0` guards of `addSeq`
are vacuous). -/
structure TPGSequenceEdge where
  fromIdx : Nat
  toIdx : Nat
deriving DecidableEq, Repr

/-- Model of `analyzer.TPG`. -/
structure TPG where
  host : String
  root : String
  vertices : List AlertEvent
  sequenceEdges : List TPGSequenceEdge
deriving DecidableEq, Repr

/-- Dedup loop of `BuildTPG`: for each source vertex keep at most one
alert event per distinct (lower-cased, trimmed) non-empty technique; the
`seenBySource` nested map is a boolean function updated pointwise. -/
def dedupBySource : List AlertEvent → (String → String → Bool) → List AlertEvent
  | [], _ => []
  | ev :: rest, seen =>
      let tech := (firstTechniqueAndName ev.ioaTags).1
      if !(tech == "") then
        let sig := goToLower (goTrimSpace tech)
        if seen ev.fromV sig then dedupBySource rest seen
        else ev :: dedupBySource rest
          (fun f s => if f == ev.fromV && s == sig then true else seen f s)
      else ev :: dedupBySource rest seen

/-- Model of the `addSeq` closure of `BuildTPG` (the `seqSet` dedup map
and the `seq` slice always hold the same edges, so one list carries
both). -/
def addSeq (n : Nat) (seq : List TPGSequenceEdge) (f t : Nat) :
    List TPGSequenceEdge :=
  if f == t || f ≥ n || t ≥ n then seq
  else if (⟨f, t⟩ : TPGSequenceEdge) ∈ seq then seq
  else seq ++ [⟨f, t⟩]

/-- Same-host temporal chain of `BuildTPG`. -/
def temporalChain (filtered : List AlertEvent)
    (seq : List TPGSequenceEdge) : List TPGSequenceEdge :=
  (List.range (filtered.length - 1)).foldl
    (fun sq i =>
      match filtered.get? i, filtered.get? (i + 1) with
      | some a, some b =>
          if a.host == b.host then addSeq filtered.length sq i (i + 1) else sq
      | _, _ => sq) seq

/-- Per-IIP forward adjacency of `deriveCausalAlertPairs`. -/
def causalAdj (iip : IIPGraph) (src : String) : List edgeRef :=
  sortBy refLE (((iip.edges.filter (fun r =>
    validEdgeRow r && r.vertexID == src))).map (fun r => { row := r, tk := rowTK r }))

/-- Indexes of alerts with the given source vertex
(`idxByFrom`, rules.go). -/
def idxByFrom (alerts : List AlertEvent) (v : String) : List Nat :=
  ((List.range alerts.length).filter
    (fun i => (alerts.get? i).any (fun ev => ev.fromV == v)))

/-- Pair collection for one visited edge of the causal BFS. -/
def causalPairsForEdge (alerts : List AlertEvent) (i : Nat)
    (srcAlert : AlertEvent) (startTK : timeKey) (next : String)
    (pairs : List TPGSequenceEdge) : List TPGSequenceEdge :=
  (idxByFrom alerts next).foldl
    (fun ps j =>
      if j ≤ i then ps
      else
        match alerts.get? j with
        | none => ps
        | some dstAlert =>
            if !(dstAlert.host == srcAlert.host) then ps
            else
              let dstTK := buildTimeKey dstAlert.ts dstAlert.recordID
              if timeKeyGE dstTK startTK then ps ++ [⟨i, j⟩] else ps) pairs

/-- Scan of one adjacency list inside the causal BFS. -/
def causalScanEdges (alerts : List AlertEvent) (i : Nat)
    (srcAlert : AlertEvent) (startTK : timeKey) :
    List edgeRef → List String → List String → List TPGSequenceEdge →
      List String × List String × List TPGSequenceEdge
  | [], seen, newQ, pairs => (seen, newQ, pairs)
  | er :: rest, seen, newQ, pairs =>
      if !(timeKeyGE er.tk startTK) then
        causalScanEdges alerts i srcAlert startTK rest seen newQ pairs
      else
        let next := er.row.adjacentID
        let pairs2 := causalPairsForEdge alerts i srcAlert startTK next pairs
        if next ∈ seen then
          causalScanEdges alerts i srcAlert startTK rest seen newQ pairs2
        else
          causalScanEdges alerts i srcAlert startTK rest (seen ++ [next])
            (newQ ++ [next]) pairs2

/-- Worklist of the causal BFS (one source alert). -/
def causalLoop (adj : String → List edgeRef) (alerts : List AlertEvent)
    (i : Nat) (srcAlert : AlertEvent) (startTK : timeKey) :
    Nat → List String → List String → List TPGSequenceEdge →
      List TPGSequenceEdge
  | 0, _, _, pairs => pairs
  | _ + 1, [], _, pairs => pairs
  | fuel + 1, cur :: rest, seen, pairs =>
      let step := causalScanEdges alerts i srcAlert startTK (adj cur) seen [] pairs
      causalLoop adj alerts i srcAlert startTK fuel (rest ++ step.2.1) step.1 step.2.2

/-- Model of `deriveCausalAlertPairs` (rules.go): for each alert `i`, BFS
forward from its target through the per-IIP adjacency following edges at
or after the alert's key, pairing it with later alerts whose source is
reached. -/
def deriveCausalAlertPairs (iip : IIPGraph) (alerts : List AlertEvent) :
    List TPGSequenceEdge :=
  if alerts.length < 2 || iip.edges.isEmpty then []
  else
    let fuel := iip.edges.length + 1
    (List.range alerts.length).foldl
      (fun pairs i =>
        match alerts.get? i with
        | none => pairs
        | some srcAlert =>
            let startTK := buildTimeKey srcAlert.ts srcAlert.recordID
            causalLoop (causalAdj iip) alerts i srcAlert startTK fuel
              [srcAlert.toV] [srcAlert.toV] pairs) []

/-- Comparison closure of the final sort of `BuildTPG`'s sequence edges. -/
def seqEdgeLess (a b : TPGSequenceEdge) : Bool :=
  if !(a.fromIdx == b.fromIdx) then a.fromIdx < b.fromIdx
  else a.toIdx < b.toIdx

/-- Model of `BuildTPG` (rules.go): sort the alert events, dedup by
(source vertex, technique), then add same-host temporal chain edges and
causal pair edges. -/
def BuildTPG (iip : IIPGraph) : TPG :=
  let vertices := sortBy alertLess iip.alertEvents
  let filtered := dedupBySource vertices (fun _ _ => false)
  let n := filtered.length
  let seq1 := temporalChain filtered []
  let seq2 := (deriveCausalAlertPairs iip filtered).foldl
    (fun sq p => addSeq n sq p.fromIdx p.toIdx) seq1
  { host := iip.host, root := iip.root, vertices := filtered,
    sequenceEdges := sortBy seqEdgeLess seq2 }

/-! ### Concrete inputs used to settle the IIP claims -/

/-- A sample IOA tag. -/
def exTag : IoaTag :=
  { id := "t", name := "n", severity := "medium", tactic := "execution",
    technique := "T1" }

/-- Build a concrete edge row for the examples. -/
def exRow (vid aid : String) (sec : Int) (rid host : String)
    (tagged : Bool) : AdjacencyRow :=
  { timestamp := goUnix sec, recordType := "edge", rtype := "E",
    vertexID := vid, adjacentID := aid, eventID := 1, hostname := host,
    agentID := "ag", recordID := rid,
    ioaTags := if tagged then [exTag] else [] }

/-- The alert edge `X → Y` shared by two IIP graphs below. -/
def exSharedRow : AdjacencyRow := exRow "X" "Y" 3 "3" "h" true

/-- Three alert edges on one host: `A → X`, `B → X`, and `X → Y`.  The
seeds `A → X` and `B → X` have empty backward history, so both become
IIPs, and each one's forward expansion collects the later alert
`X → Y`. -/
def exDupRows : List AdjacencyRow :=
  [exRow "A" "X" 1 "1" "h" true,
   exRow "B" "X" 2 "2" "h" true,
   exSharedRow]

/-- Rows whose backtrace-memo keys collide across hosts: on host `a` the
seed with source `b|w` caches `true` under key `a|b|w|1` and the seed with
source `b|c` caches `false` under key `a|b|c|1`; on host `a|b` the alert
`w → c` then hits the stale `true` (so it is skipped and never absorbs
anything) and the seed `c → z` hits the stale `false` (so its backward
test never runs). -/
def exMemoRows : List AdjacencyRow :=
  [exRow "g" "p" 70 "1" "a" true,
   exRow "p" "b|w" 20 "2" "a" false,
   exRow "b|w" "y2" 95 "3" "a" true,
   exRow "b|c" "y1" 100 "4" "a" true,
   exRow "w" "c" 90 "5" "a|b" true,
   exRow "c" "z" 110 "6" "a|b" true]

/-- C4 (counterexample): the alert-event identity of the edge `X → Y`
appears in the `alert_events` of two distinct IIP graphs produced from
`exDupRows`, refuting the claim that each identity appears in at most one
graph's `alert_events`. -/
theorem BuildIIPGraphs_shared_alert_counterexample :
    (BuildIIPGraphs exDupRows).length = 2 ∧
    (BuildIIPGraphs exDupRows).countP
      (fun g => decide (edgeIdentityKey exSharedRow ∈
        g.alertEvents.map alertIdentity)) = 2 := by
  decide

/-- C5 (failing input): `BuildIIPGraphs exMemoRows` emits an IIP graph
seeded at `c → z` on host `a|b` although the alert edge `w → c` on the
same host lies one step backward from the seed's source vertex with a
strictly smaller time key — the memoization cache key
`host + "|" + from + "|" + bucket` collided with a key set on host `a`,
so the backward earlier-alert test was never run for this seed.  This
contradicts the generation strategy documented on `IIPGraph` in rules.go
(a seed alert is accepted as IIP only if the backward trace from the seed
vertex, filtered to keys below the seed key, crosses no alert edge). -/
theorem backwardHasEarlierAlert_memo_collision_bug :
    ∃ g ∈ BuildIIPGraphs exMemoRows, g.host = "a|b" ∧ g.root = "c" ∧
      ∃ e ∈ exMemoRows, isAlertEdge e = true ∧ hostForRow e = g.host ∧
        e.adjacentID = g.root ∧
        timeKeyLT (rowTK e) (buildTimeKey g.iipTS g.iipRecordID) = true := by
  decide

/-! ### Invariants of the IIP construction -/

theorem foldl_preserve {α σ : Type} {f : σ → α → σ} {Inv : σ → Prop}
    (h : ∀ s a, Inv s → Inv (f s a)) :
    ∀ (l : List α) (s : σ), Inv s → Inv (List.foldl f s l)
  | [], _, hs => hs
  | a :: l, s, hs => foldl_preserve h l (f s a) (h s a hs)

theorem tk_of_mem_forwardRefs {rows : List AdjacencyRow} {host src : String}
    {er : edgeRef} (h : er ∈ forwardRefs rows host src) :
    er.tk = rowTK er.row := by
  unfold forwardRefs at h
  rw [mem_sortBy] at h
  rcases List.mem_map.mp h with ⟨r, -, rfl⟩
  rfl

theorem iipVisit_edges (er : edgeRef) (acc : iipAcc) :
    (iipVisit er acc).edges = acc.edges := by
  unfold iipVisit
  split <;> rfl

theorem iipVisit_alerts (er : edgeRef) (acc : iipAcc) :
    (iipVisit er acc).alerts = acc.alerts := by
  unfold iipVisit
  split <;> rfl

theorem iipVisit_seenE (er : edgeRef) (acc : iipAcc) :
    (iipVisit er acc).seenE = acc.seenE := by
  unfold iipVisit
  split <;> rfl

/-- Collected edges lie at or after the seed key. -/
def edgesGE (seedTK : timeKey) (l : List AdjacencyRow) : Prop :=
  ∀ r ∈ l, timeKeyGE (rowTK r) seedTK = true

theorem iipTake_edges_ge {host : String} {seedTK : timeKey} {er : edgeRef}
    {acc : iipAcc} (hge : timeKeyGE (rowTK er.row) seedTK = true)
    (h : edgesGE seedTK acc.edges) :
    edgesGE seedTK (iipTake host er acc).edges := by
  unfold iipTake
  split
  · exact h
  · intro r hr
    rcases List.mem_append.mp hr with hr | hr
    · exact h r hr
    · rw [List.mem_singleton.mp hr]
      exact hge

theorem iipScanEdges_edges_ge {host : String} {seedTK : timeKey}
    {canReach : String → Bool} :
    ∀ (l : List edgeRef) (acc : iipAcc),
      (∀ er ∈ l, er.tk = rowTK er.row) →
      edgesGE seedTK acc.edges →
      edgesGE seedTK (iipScanEdges host seedTK canReach l acc).edges
  | [], _, _, h => h
  | er :: rest, acc, htk, h => by
    have htkrest : ∀ e ∈ rest, e.tk = rowTK e.row :=
      fun e he => htk e (List.mem_cons_of_mem _ he)
    unfold iipScanEdges
    split_ifs with h1 h2
    · exact iipScanEdges_edges_ge rest acc htkrest h
    · exact iipScanEdges_edges_ge rest acc htkrest h
    · refine iipScanEdges_edges_ge rest _ htkrest ?_
      rw [iipVisit_edges]
      refine iipTake_edges_ge ?_ h
      have htke : er.tk = rowTK er.row := htk er (List.mem_cons_self _ _)
      rw [← htke]
      simpa using h1

theorem iipLoop_edges_ge {fwd : String → List edgeRef} {host : String}
    {seedTK : timeKey} {canReach : String → Bool}
    (hfwd : ∀ v, ∀ er ∈ fwd v, er.tk = rowTK er.row) :
    ∀ (fuel : Nat) (queue : List String) (acc : iipAcc),
      edgesGE seedTK acc.edges →
      edgesGE seedTK (iipLoop fwd host seedTK canReach fuel queue acc).edges
  | 0, _, _, h => h
  | _ + 1, [], _, h => h
  | fuel + 1, cur :: rest, acc, h => by
    unfold iipLoop
    exact iipLoop_edges_ge hfwd fuel _ _
      (iipScanEdges_edges_ge (fwd cur) _ (hfwd cur) h)

theorem buildIIPGraph_edges_ge (rows : List AdjacencyRow)
    (marks : List (String × String)) (fuel : Nat) (seed : AlertEvent) :
    ∀ e ∈ (buildIIPGraph rows marks fuel seed).edges,
      timeKeyGE (rowTK e) (buildTimeKey seed.ts seed.recordID) = true := by
  intro e he
  unfold buildIIPGraph at he
  rw [mem_sortBy] at he
  exact iipLoop_edges_ge (fun v er hm => tk_of_mem_forwardRefs hm) _ _ _
    (fun r hr => absurd hr (List.not_mem_nil r)) e he

theorem iipSeedStep_out (rows : List AdjacencyRow)
    (marks : List (String × String)) (fuel : Nat) (st : iipState)
    (a : AlertEvent) :
    (iipSeedStep rows marks fuel st a).out = st.out ∨
      (iipSeedStep rows marks fuel st a).out =
        st.out ++ [buildIIPGraph rows marks fuel a] := by
  simp only [iipSeedStep]
  split
  · exact Or.inl rfl
  · split
    · exact Or.inl rfl
    · split
      · exact Or.inl rfl
      · exact Or.inr rfl

theorem foldl_seedStep_out {rows : List AdjacencyRow}
    {marks : List (String × String)} {fuel : Nat} :
    ∀ (hosts : List String) (alerts : List AlertEvent) (st : iipState),
      (∀ g' ∈ st.out, ∃ seed, g' = buildIIPGraph rows marks fuel seed) →
      ∀ g' ∈ (hosts.foldl (fun s host =>
          (alertsByHost alerts host).foldl (iipSeedStep rows marks fuel) s)
            st).out,
        ∃ seed, g' = buildIIPGraph rows marks fuel seed := by
  intro hosts alerts st hst
  refine @foldl_preserve _ _ _
    (fun s => ∀ g' ∈ s.out, ∃ seed, g' = buildIIPGraph rows marks fuel seed)
    ?_ hosts st hst
  intro s host hs
  refine @foldl_preserve _ _ _
    (fun s => ∀ g' ∈ s.out, ∃ seed, g' = buildIIPGraph rows marks fuel seed)
    ?_ (alertsByHost alerts host) s hs
  intro s' a hs' g' hg'
  rcases iipSeedStep_out rows marks fuel s' a with hout | hout
  · exact hs' g' (hout ▸ hg')
  · rw [hout] at hg'
    rcases List.mem_append.mp hg' with hin | hin
    · exact hs' g' hin
    · exact ⟨a, List.mem_singleton.mp hin⟩

theorem mem_BuildIIPGraphs_exists_seed {rows : List AdjacencyRow}
    {g : IIPGraph} (h : g ∈ BuildIIPGraphs rows) :
    ∃ marks fuel seed, g = buildIIPGraph rows marks fuel seed := by
  simp only [BuildIIPGraphs] at h
  split at h
  · cases h
  · rw [mem_sortBy] at h
    obtain ⟨seed, hseed⟩ := foldl_seedStep_out _ _ _
      (fun g' hg' => absurd hg' (List.not_mem_nil g')) g h
    exact ⟨_, _, seed, hseed⟩

/-- C6: every edge of every emitted IIP graph carries a time key at or
after the graph's (iip_ts, iip_record_id) seed key. -/
theorem BuildIIPGraphs_edge_keys_ge_iip (rows : List AdjacencyRow)
    (g : IIPGraph) (hg : g ∈ BuildIIPGraphs rows) :
    ∀ e ∈ g.edges,
      timeKeyGE (buildTimeKey e.timestamp e.recordID)
        (buildTimeKey g.iipTS g.iipRecordID) = true := by
  rcases mem_BuildIIPGraphs_exists_seed hg with ⟨marks, fuel, seed, rfl⟩
  intro e he
  exact buildIIPGraph_edges_ge rows marks fuel seed e he

/-- C6 (witness): the edge-key invariant at a concrete input. -/
theorem BuildIIPGraphs_edge_keys_ge_iip_witness :
    timeKeyGE
      (buildTimeKey ((BuildIIPGraphs exDupRows).headI.edges.headI).timestamp
        ((BuildIIPGraphs exDupRows).headI.edges.headI).recordID)
      (buildTimeKey (BuildIIPGraphs exDupRows).headI.iipTS
        (BuildIIPGraphs exDupRows).headI.iipRecordID) = true :=
  BuildIIPGraphs_edge_keys_ge_iip exDupRows (BuildIIPGraphs exDupRows).headI
    (by decide) ((BuildIIPGraphs exDupRows).headI.edges.headI) (by decide)

theorem alertIdentity_mkAlertEvent (host : String) (r : AdjacencyRow) :
    alertIdentity (mkAlertEvent host r) = edgeIdentityKey r := rfl

/-- Alert accumulator invariant of `buildIIPGraph`'s BFS: collected alert
identities are pairwise distinct and all recorded in `seenEdge`. -/
def alertsInv (acc : iipAcc) : Prop :=
  acc.alerts.Pairwise (fun x y => alertIdentity x ≠ alertIdentity y) ∧
  ∀ x ∈ acc.alerts, alertIdentity x ∈ acc.seenE

theorem iipTake_alertsInv {host : String} {er : edgeRef} {acc : iipAcc}
    (h : alertsInv acc) : alertsInv (iipTake host er acc) := by
  unfold iipTake
  split
  · exact h
  · next hkey =>
    have hyid : ∀ y ∈ (if isAlertEdge er.row then
        [mkAlertEvent host er.row] else []),
        alertIdentity y = edgeIdentityKey er.row := by
      split
      · intro y hy
        rw [List.mem_singleton.mp hy]
        rfl
      · intro y hy
        cases hy
    constructor
    · rw [List.pairwise_append]
      refine ⟨h.1, ?_, ?_⟩
      · split
        · exact List.pairwise_singleton _ _
        · exact List.Pairwise.nil
      · intro x hx y hy hxy
        have hxs := h.2 x hx
        rw [hxy, hyid y hy] at hxs
        exact hkey hxs
    · intro x hx
      rcases List.mem_append.mp hx with hx | hx
      · exact List.mem_append_left _ (h.2 x hx)
      · rw [hyid x hx]
        exact List.mem_append_right _ (List.mem_singleton_self _)

theorem iipScanEdges_alertsInv {host : String} {seedTK : timeKey}
    {canReach : String → Bool} :
    ∀ (l : List edgeRef) (acc : iipAcc), alertsInv acc →
      alertsInv (iipScanEdges host seedTK canReach l acc)
  | [], _, h => h
  | er :: rest, acc, h => by
    unfold iipScanEdges
    split_ifs with h1 h2
    · exact iipScanEdges_alertsInv rest acc h
    · exact iipScanEdges_alertsInv rest acc h
    · refine iipScanEdges_alertsInv rest _ ?_
      have ht : alertsInv (iipTake host er acc) := iipTake_alertsInv h
      constructor
      · rw [iipVisit_alerts]
        exact ht.1
      · intro x hx
        rw [iipVisit_alerts] at hx
        rw [iipVisit_seenE]
        exact ht.2 x hx

theorem iipLoop_alertsInv {fwd : String → List edgeRef} {host : String}
    {seedTK : timeKey} {canReach : String → Bool} :
    ∀ (fuel : Nat) (queue : List String) (acc : iipAcc), alertsInv acc →
      alertsInv (iipLoop fwd host seedTK canReach fuel queue acc)
  | 0, _, _, h => h
  | _ + 1, [], _, h => h
  | fuel + 1, cur :: rest, acc, h => by
    unfold iipLoop
    exact iipLoop_alertsInv fuel _ _
      (iipScanEdges_alertsInv (fwd cur) _ h)

theorem buildIIPGraph_alert_identities_nodup (rows : List AdjacencyRow)
    (marks : List (String × String)) (fuel : Nat) (seed : AlertEvent) :
    (buildIIPGraph rows marks fuel seed).alertEvents.Pairwise
      (fun x y => alertIdentity x ≠ alertIdentity y) := by
  have hinv : alertsInv (iipLoop (fun v => forwardRefs rows seed.host v)
      seed.host (buildTimeKey seed.ts seed.recordID)
      (fun v => decide ((seed.host, v) ∈ marks)) fuel [seed.fromV]
      { seenV := [seed.fromV], seenE := [], edges := [], alerts := [],
        newQ := [] }) :=
    iipLoop_alertsInv fuel [seed.fromV] _
      ⟨List.Pairwise.nil, fun x hx => absurd hx (List.not_mem_nil x)⟩
  simp only [buildIIPGraph]
  exact ((sortBy_perm alertLess _).pairwise_iff
    (by intro x y hxy he; exact hxy he.symm)).mpr hinv.1

/-- C4 (amended): within any single emitted IIPGraph, each alert-event
identity appears at most once in `alert_events` (identities are deduped
per graph by `seenEdge`); across graphs an identity may recur — only
seeding is deduplicated — as the counterexample shows. -/
theorem BuildIIPGraphs_alert_identity_nodup_within (rows : List AdjacencyRow)
    (g : IIPGraph) (hg : g ∈ BuildIIPGraphs rows) :
    g.alertEvents.Pairwise (fun x y => alertIdentity x ≠ alertIdentity y) := by
  rcases mem_BuildIIPGraphs_exists_seed hg with ⟨marks, fuel, seed, rfl⟩
  exact buildIIPGraph_alert_identities_nodup rows marks fuel seed

/-- C4 (witness): within-graph identity uniqueness at a concrete input. -/
theorem BuildIIPGraphs_alert_identity_nodup_within_witness :
    ((BuildIIPGraphs exDupRows).headI).alertEvents.Pairwise
      (fun x y => alertIdentity x ≠ alertIdentity y) :=
  BuildIIPGraphs_alert_identity_nodup_within exDupRows
    (BuildIIPGraphs exDupRows).headI (by decide)

theorem charsLT_asymm : ∀ as bs : List Char,
    charsLT as bs = true → charsLT bs as = false
  | [], [], h => by simp [charsLT] at h
  | [], _ :: _, _ => by simp [charsLT]
  | _ :: _, [], h => by simp [charsLT] at h
  | a :: as, b :: bs, h => by
    unfold charsLT at h ⊢
    by_cases h1 : a.toNat < b.toNat
    · rw [if_neg (by omega), if_pos h1]
    · by_cases h2 : b.toNat < a.toNat
      · rw [if_neg h1, if_pos h2] at h
        cases h
      · rw [if_neg h1, if_neg h2] at h
        rw [if_neg h2, if_neg h1]
        exact charsLT_asymm as bs h

theorem goStrLT_asymm (a b : String) (h : goStrLT a b = true) :
    goStrLT b a = false :=
  charsLT_asymm _ _ h

theorem iipLess_asymm (a b : IIPGraph) (h : iipLess a b = true) :
    iipLess b a = false := by
  unfold iipLess at h ⊢
  by_cases hh : a.host = b.host
  · rw [if_neg (fun hc => hc hh.symm)]
    rw [if_neg (fun hc => hc hh)] at h
    by_cases h2 : timeKeyLT (buildTimeKey a.iipTS a.iipRecordID)
        (buildTimeKey b.iipTS b.iipRecordID) = true
    · rw [if_neg (fun hc => by rw [timeKeyLT_asymm h2] at hc; cases hc),
        if_pos h2]
    · by_cases h3 : timeKeyLT (buildTimeKey b.iipTS b.iipRecordID)
          (buildTimeKey a.iipTS a.iipRecordID) = true
      · rw [if_neg h2, if_pos h3] at h
        cases h
      · rw [if_neg h2, if_neg h3] at h
        rw [if_neg h3, if_neg h2]
        exact goStrLT_asymm _ _ h
  · rw [if_pos hh] at h
    rw [if_pos (fun hc => hh hc.symm)]
    exact goStrLT_asymm _ _ h

/-- Two tagged alert edges `A → B` on the same host at the same second,
identical except for their unparseable (hence rid-less) record ids, in
the two possible input orders. -/
def exPermRows1 : List AdjacencyRow :=
  [exRow "A" "B" 5 "x" "h" true, exRow "A" "B" 5 "y" "h" true]

def exPermRows2 : List AdjacencyRow :=
  [exRow "A" "B" 5 "y" "h" true, exRow "A" "B" 5 "x" "h" true]

/-- C10 (counterexample to multiset-determinism): the two inputs are
permutations of each other, yet `BuildIIPGraphs` returns different
outputs: the two alerts tie under `compareAlertEvents` (rid-less time
keys at the same timestamp, equal host/from/to/type), the first seed in
iteration order absorbs both alert identities into its graph so the
other is skipped, and the emitted graph's iip_record_id is the seed
row's — so the output depends on the input list order, not only on the
row multiset. -/
theorem BuildIIPGraphs_multiset_order_counterexample :
    List.Perm exPermRows1 exPermRows2 ∧
    (BuildIIPGraphs exPermRows1).map (fun g => g.iipRecordID) = ["x"] ∧
    (BuildIIPGraphs exPermRows2).map (fun g => g.iipRecordID) = ["y"] ∧
    BuildIIPGraphs exPermRows1 ≠ BuildIIPGraphs exPermRows2 := by decide

/-- C10 (amended): the list returned by `BuildIIPGraphs` is sorted by
the final comparator — ascending host, then the (iip_ts, iip_record_id)
time key, then ascending root: no later graph compares strictly below an
earlier adjacent one.  The output is a deterministic function of the
input row list, but not of its multiset: seeds with tied rid-less time
keys are resolved by iteration order, as the counterexample above
shows. -/
theorem BuildIIPGraphs_output_sorted (rows : List AdjacencyRow) :
    List.Chain' (fun g1 g2 => iipLess g2 g1 = false) (BuildIIPGraphs rows) := by
  simp only [BuildIIPGraphs]
  split
  · exact List.chain'_nil
  · exact chain'_sortBy (fun x y hxy => iipLess_asymm x y hxy) _

/-! ### TPG dedup properties (claim C7) -/

/-- Technique of an alert event as used by `BuildTPG`'s dedup. -/
def evTech (ev : AlertEvent) : String := (firstTechniqueAndName ev.ioaTags).1

/-- Dedup signature of an alert event: lower-cased trimmed technique. -/
def evSig (ev : AlertEvent) : String := goToLower (goTrimSpace (evTech ev))

/-- Membership in one (source vertex, technique signature) dedup class. -/
def classP (f sig : String) (ev : AlertEvent) : Bool :=
  ev.fromV == f && !(evTech ev == "") && evSig ev == sig

theorem classP_iff (f sig : String) (ev : AlertEvent) :
    classP f sig ev = true ↔
      ev.fromV = f ∧ evTech ev ≠ "" ∧ evSig ev = sig := by
  unfold classP
  simp [Bool.and_eq_true, beq_iff_eq, Bool.not_eq_true', and_assoc]

theorem dedupBySource_kept_not_seen :
    ∀ (l : List AlertEvent) (seen : String → String → Bool),
      ∀ ev ∈ dedupBySource l seen, evTech ev ≠ "" →
        seen ev.fromV (evSig ev) = false
  | [], _, ev, hmem, _ => absurd hmem (List.not_mem_nil ev)
  | e :: rest, seen, ev, hmem, htech => by
    simp only [dedupBySource] at hmem
    split_ifs at hmem with h1 h2
    · exact dedupBySource_kept_not_seen rest seen ev hmem htech
    · rcases List.mem_cons.mp hmem with rfl | hmem
      · cases hb : seen ev.fromV (evSig ev) with
        | false => rfl
        | true => exact absurd hb h2
      · have hrec := dedupBySource_kept_not_seen rest _ ev hmem htech
        by_cases hc : (ev.fromV == e.fromV &&
            evSig ev == goToLower (goTrimSpace
              (firstTechniqueAndName e.ioaTags).1)) = true
        · rw [if_pos hc] at hrec
          cases hrec
        · rw [if_neg hc] at hrec
          exact hrec
    · rcases List.mem_cons.mp hmem with rfl | hmem
      · exfalso
        apply htech
        have : ((firstTechniqueAndName ev.ioaTags).1 == "") = true := by
          cases hb : ((firstTechniqueAndName ev.ioaTags).1 == "") with
          | true => rfl
          | false => exact absurd (by rw [hb]; rfl) h1
        exact beq_iff_eq.mp this
      · exact dedupBySource_kept_not_seen rest seen ev hmem htech

theorem dedupBySource_pairwise :
    ∀ (l : List AlertEvent) (seen : String → String → Bool),
      (dedupBySource l seen).Pairwise (fun u v =>
        u.fromV = v.fromV → evTech u ≠ "" → evTech v ≠ "" →
          evSig u ≠ evSig v)
  | [], _ => List.Pairwise.nil
  | e :: rest, seen => by
    simp only [dedupBySource]
    split_ifs with h1 h2
    · exact dedupBySource_pairwise rest seen
    · refine List.Pairwise.cons ?_ (dedupBySource_pairwise rest _)
      intro v hv hfrom hte htv hsig
      have hkept := dedupBySource_kept_not_seen rest _ v hv htv
      rw [if_pos ?_] at hkept
      · cases hkept
      · rw [Bool.and_eq_true, beq_iff_eq, beq_iff_eq]
        exact ⟨hfrom.symm, hsig.symm⟩
    · refine List.Pairwise.cons ?_ (dedupBySource_pairwise rest seen)
      intro v hv hfrom hte htv
      exfalso
      apply hte
      have : ((firstTechniqueAndName e.ioaTags).1 == "") = true := by
        cases hb : ((firstTechniqueAndName e.ioaTags).1 == "") with
        | true => rfl
        | false => exact absurd (by rw [hb]; rfl) h1
      exact beq_iff_eq.mp this

theorem dedupBySource_keeps_empty :
    ∀ (l : List AlertEvent) (seen : String → String → Bool),
      (dedupBySource l seen).filter (fun ev => evTech ev == "") =
        l.filter (fun ev => evTech ev == "")
  | [], _ => rfl
  | e :: rest, seen => by
    simp only [dedupBySource]
    split_ifs with h1 h2
    · rw [dedupBySource_keeps_empty rest seen, List.filter_cons,
        if_neg (by simpa [evTech] using h1)]
    · rw [List.filter_cons, List.filter_cons,
        if_neg (by simpa [evTech] using h1),
        if_neg (by simpa [evTech] using h1),
        dedupBySource_keeps_empty rest _]
    · have he : (evTech e == "") = true := by
        cases hb : ((firstTechniqueAndName e.ioaTags).1 == "") with
        | true => exact hb
        | false => exact absurd (by rw [hb]; rfl) h1
      rw [List.filter_cons, List.filter_cons, if_pos he, if_pos he,
        dedupBySource_keeps_empty rest seen]

theorem evTech_beq_false {e : AlertEvent}
    (h1 : (!((firstTechniqueAndName e.ioaTags).1 == "")) = true) :
    (evTech e == "") = false := by
  rw [Bool.not_eq_true'] at h1
  exact h1

theorem evTech_beq_true {e : AlertEvent}
    (h1 : ¬((!((firstTechniqueAndName e.ioaTags).1 == "")) = true)) :
    (evTech e == "") = true := by
  cases hb : ((firstTechniqueAndName e.ioaTags).1 == "") with
  | true => exact hb
  | false =>
    exfalso
    apply h1
    rw [hb]
    rfl

theorem classP_false_of_empty {f sig : String} {e : AlertEvent}
    (h1 : ¬((!((firstTechniqueAndName e.ioaTags).1 == "")) = true)) :
    classP f sig e = false := by
  cases hb : classP f sig e with
  | false => rfl
  | true =>
    obtain ⟨-, hte, -⟩ := (classP_iff f sig e).mp hb
    exact absurd (beq_iff_eq.mp (evTech_beq_true h1)) hte

theorem dedupSeen_update_true {seen : String → String → Bool}
    {f0 s0 f sig : String} (h : seen f sig = true) :
    (fun f' s' => if f' == f0 && s' == s0 then true else seen f' s')
      f sig = true := by
  by_cases hc : (f == f0 && sig == s0) = true
  · simp only [hc, if_true]
  · simp only [hc, if_false]
    exact h

theorem evTech_ne_of_pos {e : AlertEvent}
    (h1 : (!((firstTechniqueAndName e.ioaTags).1 == "")) = true) :
    evTech e ≠ "" := by
  intro hte
  have hb := evTech_beq_false h1
  rw [hte] at hb
  simp at hb

theorem dedupBySource_class_filter_seen :
    ∀ (l : List AlertEvent) (seen : String → String → Bool) (f sig : String),
      seen f sig = true →
      (dedupBySource l seen).filter (classP f sig) = []
  | [], _, _, _, _ => rfl
  | e :: rest, seen, f, sig, hseen => by
    simp only [dedupBySource]
    split_ifs with h1 h2
    · exact dedupBySource_class_filter_seen rest seen f sig hseen
    · have hce : classP f sig e = false := by
        cases hb : classP f sig e with
        | false => rfl
        | true =>
          obtain ⟨hf, -, hs⟩ := (classP_iff f sig e).mp hb
          exfalso
          apply h2
          show seen e.fromV (evSig e) = true
          rw [hf, hs]
          exact hseen
      rw [List.filter_cons, if_neg (by simp [hce])]
      exact dedupBySource_class_filter_seen rest _ f sig
        (dedupSeen_update_true hseen)
    · rw [List.filter_cons, if_neg (by simp [classP_false_of_empty h1])]
      exact dedupBySource_class_filter_seen rest seen f sig hseen

theorem dedupBySource_class_filter_fresh :
    ∀ (l : List AlertEvent) (seen : String → String → Bool) (f sig : String),
      seen f sig = false →
      (dedupBySource l seen).filter (classP f sig) =
        (l.filter (classP f sig)).take 1
  | [], _, _, _, _ => rfl
  | e :: rest, seen, f, sig, hfresh => by
    simp only [dedupBySource]
    split_ifs with h1 h2
    · -- e's signature was seen, so e's class cannot be the fresh (f, sig)
      have hce : classP f sig e = false := by
        cases hb : classP f sig e with
        | false => rfl
        | true =>
          obtain ⟨hf, -, hs⟩ := (classP_iff f sig e).mp hb
          have h2' : seen e.fromV (evSig e) = true := h2
          rw [hf, hs, hfresh] at h2'
          cases h2'
      rw [List.filter_cons, if_neg (by simp [hce])]
      exact dedupBySource_class_filter_fresh rest seen f sig hfresh
    · by_cases hc : classP f sig e = true
      · -- e is the first member of the class: it is kept, later ones die
        obtain ⟨hf, -, hs⟩ := (classP_iff f sig e).mp hc
        rw [List.filter_cons, List.filter_cons, if_pos (by rw [hc]),
          if_pos (by rw [hc]), List.take_succ_cons, List.take_zero]
        rw [dedupBySource_class_filter_seen rest _ f sig ?_]
        show (if f == e.fromV && sig == evSig e then true
          else seen f sig) = true
        rw [if_pos ?_]
        rw [Bool.and_eq_true, beq_iff_eq, beq_iff_eq]
        exact ⟨hf.symm, hs.symm⟩
      · have hce : classP f sig e = false := by
          cases hb : classP f sig e with
          | false => rfl
          | true => exact absurd hb hc
        rw [List.filter_cons, List.filter_cons, if_neg (by simp [hce]),
          if_neg (by simp [hce])]
        refine dedupBySource_class_filter_fresh rest _ f sig ?_
        show (if f == e.fromV && sig == evSig e then true
          else seen f sig) = false
        by_cases hq : (f == e.fromV && sig == evSig e) = true
        · exfalso
          apply hc
          rw [Bool.and_eq_true, beq_iff_eq, beq_iff_eq] at hq
          rw [classP_iff]
          exact ⟨hq.1.symm, evTech_ne_of_pos h1, hq.2.symm⟩
        · rw [if_neg hq]
          exact hfresh
    · rw [List.filter_cons, List.filter_cons,
        if_neg (by simp [classP_false_of_empty h1]),
        if_neg (by simp [classP_false_of_empty h1])]
      exact dedupBySource_class_filter_fresh rest seen f sig hfresh

/-- C7: in any TPG, within one source vertex there is at most one vertex
per distinct non-empty technique signature; events with empty technique
are preserved exactly; and for each (from, signature) class the kept
vertex is the first of that class in the (host, time-key, from, to, type)
sorted order of the input alert events. -/
theorem BuildTPG_dedup_per_source (iip : IIPGraph) :
    ((BuildTPG iip).vertices.Pairwise (fun u v =>
      u.fromV = v.fromV → evTech u ≠ "" → evTech v ≠ "" →
        evSig u ≠ evSig v)) ∧
    ((BuildTPG iip).vertices.filter (fun ev => evTech ev == "") =
      (sortBy alertLess iip.alertEvents).filter (fun ev => evTech ev == "")) ∧
    (∀ f sig, (BuildTPG iip).vertices.filter (classP f sig) =
      ((sortBy alertLess iip.alertEvents).filter (classP f sig)).take 1) := by
  refine ⟨?_, ?_, ?_⟩
  · exact dedupBySource_pairwise (sortBy alertLess iip.alertEvents) _
  · exact dedupBySource_keeps_empty (sortBy alertLess iip.alertEvents) _
  · intro f sig
    exact dedupBySource_class_filter_fresh
      (sortBy alertLess iip.alertEvents) (fun _ _ => false) f sig rfl

/-! ### Incident construction (claim C8) -/

/-- Model of `analyzer.TacticalScore` (tactical_score.go).  The Go
`float64` risk fields are modelled as exact rationals; the operations
verified here only compare them. -/
structure TacticalScore where
  sequenceLength : Int
  riskProduct : Rat
  riskSum : Rat
  tacticCoverage : Int
  bestVertexIndexes : List Nat
  bestVertexRecordID : List String
deriving DecidableEq, Repr

/-- Model of `analyzer.ScoredTPG` (tactical_score.go). -/
structure ScoredTPG where
  host : String
  root : String
  score : TacticalScore
  tpg : TPG
deriving DecidableEq, Repr

/-- Model of `analyzer.Incident` (temporal.go). -/
structure Incident where
  host : String
  root : String
  iipTS : Int
  sequenceLength : Int
  riskProduct : Rat
  riskSum : Rat
  tacticCoverage : Int
  alertCount : Int
  severity : String
deriving DecidableEq, Repr

/-- Model of `incidentSeverity` (temporal.go). -/
def incidentSeverity (seq : Int) (riskProduct : Rat) : String :=
  if seq ≥ 4 ∨ riskProduct ≥ 100 then "critical"
  else if seq ≥ 3 ∨ riskProduct ≥ 25 then "high"
  else if seq ≥ 2 ∨ riskProduct ≥ 9 then "medium"
  else "low"

/-- Loop body of `BuildIncidents` (temporal.go).  The Go code reads
`s.TPG.Vertices[0].TS` *before* its `len(s.TPG.Vertices) == 0` guard, so
the guard is dead code and indexing an empty vertex slice panics; the
panic is modelled by `none`. -/
def buildIncidentsLoop (minSeq : Int) : List ScoredTPG → Option (List Incident)
  | [] => some []
  | s :: rest =>
      if s.score.sequenceLength < minSeq then buildIncidentsLoop minSeq rest
      else
        match s.tpg.vertices with
        | [] => none
        | v :: _ =>
            match buildIncidentsLoop minSeq rest with
            | none => none
            | some out =>
                some ({ host := s.host, root := s.root, iipTS := v.ts,
                        sequenceLength := s.score.sequenceLength,
                        riskProduct := s.score.riskProduct,
                        riskSum := s.score.riskSum,
                        tacticCoverage := s.score.tacticCoverage,
                        alertCount := Int.ofNat s.tpg.vertices.length,
                        severity := incidentSeverity s.score.sequenceLength
                          s.score.riskProduct } :: out)

/-- Model of `BuildIncidents` (temporal.go). -/
def BuildIncidents (scored : List ScoredTPG) (minSeq : Int) :
    Option (List Incident) :=
  buildIncidentsLoop (if minSeq ≤ 0 then 1 else minSeq) scored

/-- A scored TPG whose vertex list is empty but whose sequence length
passes the threshold. -/
def exScoredEmpty : ScoredTPG :=
  { host := "h1", root := "proc:h1:r", 
    score := { sequenceLength := 1, riskProduct := 0, riskSum := 0,
               tacticCoverage := 0, bestVertexIndexes := [],
               bestVertexRecordID := [] },
    tpg := { host := "h1", root := "proc:h1:r", vertices := [],
             sequenceEdges := [] } }

/-- A scored TPG with one vertex at time `goUnix 30`. -/
def exScoredOne : ScoredTPG :=
  { host := "h1", root := "proc:h1:r",
    score := { sequenceLength := 2, riskProduct := 10, riskSum := 10,
               tacticCoverage := 1, bestVertexIndexes := [0],
               bestVertexRecordID := ["7"] },
    tpg := { host := "h1", root := "proc:h1:r",
             vertices := [mkAlertEvent "h1" (exRow "A" "B" 30 "7" "h1" true)],
             sequenceEdges := [] } }

/-- C8: `BuildIncidents` panics (modelled by `none`) on any scored TPG
that passes the `min_seq` filter with an empty TPG vertex list, because
`Vertices[0]` is read before the emptiness guard; on TPGs with vertices
it returns normally and each incident's `iip_ts` equals the ts of the
first vertex of its TPG. -/
theorem BuildIncidents_empty_vertices_panic :
    BuildIncidents [exScoredEmpty] 1 = none ∧
    (BuildIncidents [exScoredOne] 1).isSome = true ∧
    ((BuildIncidents [exScoredOne] 1).getD []).length = 1 ∧
    ((BuildIncidents [exScoredOne] 1).getD []).all
      (fun i => i.iipTS == goUnix 30) = true := by
  decide

/-! ### Write-stage retry (claim C1) -/

/-- Outcome of the per-batch retry loop of `flush`
(`writeLoop`, adjacency_redis_pipeline.go). -/
inductive FlushOutcome where
  | success (calls : Nat)
  | cancelled (calls : Nat)
deriving DecidableEq, Repr

/-- Model of the retry loop of `flush` for one batch: call the sink's
`WriteRows`; on error wait one second — observing cancellation — and try
again, with no attempt cap; on success clear the batch and stop.
`sinkFails n` says whether the `(n+1)`-th call fails and `cancelAt n`
whether the context is cancelled during the wait that follows it.  The
fuel bounds the unbounded Go loop: `none` means the loop was still
retrying after `fuel` further calls. -/
def flushRetry (sinkFails cancelAt : Nat → Bool) :
    Nat → Nat → Option FlushOutcome
  | 0, _ => none
  | fuel + 1, n =>
      if sinkFails n then
        if cancelAt n then some (.cancelled (n + 1))
        else flushRetry sinkFails cancelAt fuel (n + 1)
      else some (.success (n + 1))

/-- C1 (counterexample): with a sink that fails its first three calls and
succeeds on the fourth, and no cancellation, the write stage calls the
sink four times and then succeeds — the batch is neither dropped after
the third failure nor is the sink limited to three calls. -/
theorem flushRetry_counterexample :
    flushRetry (fun n => decide (n < 3)) (fun _ => false) 10 0 =
      some (FlushOutcome.success 4) ∧ ¬(4 ≤ 3) := by
  decide

/-- C1 (amended): the retry loop has no attempt cap: if the sink first
succeeds on its `(k+1)`-th call and cancellation never fires before
that, the sink is called exactly `k+1` times (for any fuel above `k`),
after which the batch is cleared; on persistent failure the loop runs
until cancellation. -/
theorem flushRetry_calls_until_success
    (sinkFails cancelAt : Nat → Bool) :
    ∀ (k fuel n : Nat), k < fuel →
      (∀ j, n ≤ j → j < n + k → sinkFails j = true) →
      sinkFails (n + k) = false →
      (∀ j, n ≤ j → j < n + k → cancelAt j = false) →
      flushRetry sinkFails cancelAt fuel n =
        some (FlushOutcome.success (n + k + 1)) := by
  intro k
  induction k with
  | zero =>
    intro fuel n hfuel hfail hsucc hcancel
    match fuel, hfuel with
    | fuel + 1, _ =>
      unfold flushRetry
      rw [if_neg ?_]
      intro hc
      rw [show n + 0 = n from rfl] at hsucc
      rw [hsucc] at hc
      cases hc
  | succ k ih =>
    intro fuel n hfuel hfail hsucc hcancel
    match fuel, hfuel with
    | fuel + 1, hfuel =>
      unfold flushRetry
      rw [if_pos (hfail n (Nat.le_refl n) (by omega)),
        if_neg (by rw [hcancel n (Nat.le_refl n) (by omega)]; exact
          Bool.false_ne_true)]
      rw [show n + (k + 1) + 1 = (n + 1) + k + 1 by omega]
      exact ih fuel (n + 1) (by omega)
        (fun j h1 h2 => hfail j (by omega) (by omega))
        (by rw [show n + 1 + k = n + (k + 1) by omega]; exact hsucc)
        (fun j h1 h2 => hcancel j (by omega) (by omega))

/-- C1 (witness): the exact-call-count law at a concrete sink that fails
five times. -/
theorem flushRetry_calls_until_success_witness :
    flushRetry (fun n => decide (n < 5)) (fun _ => false) 9 0 =
      some (FlushOutcome.success 6) := by
  have h := flushRetry_calls_until_success (fun n => decide (n < 5))
    (fun _ => false) 5 9 0 (by omega)
    (fun j h1 h2 => by simp; omega)
    (by simp)
    (fun j h1 h2 => rfl)
  simpa using h

/-! ### Streaming alert scorer (claim C9) — `internal/alerts` -/

/-- Model of `alerts.Config` (durations in nanoseconds). -/
structure AlertsConfig where
  window : Int
  threshold : Int
  maxRows : Nat
  cooldown : Int
deriving DecidableEq, Repr

/-- Model of `alerts.vertexState`. -/
structure vertexState where
  rows : List AdjacencyRow
  lastAlert : Int
deriving DecidableEq, Repr

/-- Model of `models.AlertCounts`. -/
structure AlertCounts where
  ioaRules : Nat
  ioaEdges : Nat
  crossProcessEdges : Nat
  entityTypes : Nat
deriving DecidableEq, Repr

/-- Model of `models.Alert`. -/
structure Alert where
  alertID : String
  vertexID : String
  score : Int
  hostname : String
  agentID : String
  windowStart : Int
  windowEnd : Int
  ioaTags : List IoaTag
  counts : AlertCounts
  evidence : List AdjacencyRow
deriving DecidableEq, Repr

/-- Model of the alerts package's `severityWeight` (part of
`internal/alerts`, distinct from the analyzer's weight map). -/
def alertSeverityWeight (level : String) : Int :=
  if goToLower level == "critical" then 7
  else if goToLower level == "high" then 5
  else if goToLower level == "medium" then 3
  else if goToLower level == "low" then 1
  else 1

/-- Model of `adjacentType`: the prefix of the adjacent id before the
first `:`, empty when the id has no colon or starts with one. -/
def adjacentType (adjacentID : String) : String :=
  let cs := adjacentID.toList
  let pre := cs.takeWhile (fun c => c ≠ ':')
  if pre.length = cs.length then ""
  else if pre.isEmpty then ""
  else ⟨pre⟩

/-- Accumulator of the `score` loop. -/
structure scoreAcc where
  severitySum : Int
  unique : List String
  entityTypes : List String
  ioaEdges : Nat
  crossProc : Nat
  tags : List IoaTag
deriving DecidableEq, Repr

/-- One row of the `score` loop (Scorer.score, internal/alerts). -/
def scoreStep (acc : scoreAcc) (row : AdjacencyRow) : scoreAcc :=
  let acc1 :=
    if row.recordType == "edge" && !(row.adjacentID == "") then
      let acc2 :=
        if !(adjacentType row.adjacentID == "") &&
            !(decide (adjacentType row.adjacentID ∈ acc.entityTypes)) then
          { acc with entityTypes := acc.entityTypes ++ [adjacentType row.adjacentID] }
        else acc
      if row.rtype == "ProcessAccessEdge" || row.rtype == "RemoteThreadEdge" then
        { acc2 with crossProc := acc2.crossProc + 1 }
      else acc2
    else acc
  if row.ioaTags.isEmpty then acc1
  else
    row.ioaTags.foldl
      (fun a tag =>
        let key := if tag.id == "" then tag.name else tag.id
        let a1 := if !(key == "") && !(decide (key ∈ a.unique)) then
            { a with unique := a.unique ++ [key] } else a
        { a1 with severitySum := a1.severitySum + alertSeverityWeight tag.severity,
                  tags := a1.tags ++ [tag] })
      { acc1 with ioaEdges := acc1.ioaEdges + 1 }

/-- Model of `Scorer.score`: total score, counts and collected tags. -/
def scoreRows (rows : List AdjacencyRow) : Int × AlertCounts × List IoaTag :=
  let acc := rows.foldl scoreStep
    { severitySum := 0, unique := [], entityTypes := [], ioaEdges := 0,
      crossProc := 0, tags := [] }
  (acc.severitySum + 2 * Int.ofNat acc.unique.length +
      Int.ofNat acc.crossProc + Int.ofNat acc.entityTypes.length,
    { ioaRules := acc.unique.length, ioaEdges := acc.ioaEdges,
      crossProcessEdges := acc.crossProc, entityTypes := acc.entityTypes.length },
    acc.tags)

/-- Model of `Scorer.prune`: drop the leading rows before the window
cutoff, then keep at most the last `maxRows` rows. -/
def pruneRows (window : Int) (maxRows : Nat) (rows : List AdjacencyRow)
    (now : Int) : List AdjacencyRow :=
  let cutoff := now - window
  let rows1 := rows.dropWhile (fun r => decide (r.timestamp < cutoff))
  if rows1.length > maxRows then rows1.drop (rows1.length - maxRows)
  else rows1

/-- Model of `Scorer.sampleEvidence`. -/
def sampleEvidence (rows : List AdjacencyRow) (maxRows : Nat) :
    List AdjacencyRow :=
  if rows.length ≤ maxRows then rows
  else rows.drop (rows.length - maxRows)

/-- One iteration of `Scorer.AddRows` over a single row: returns the
updated per-vertex map, the (possibly mutated) row, and any emitted
alert.  `now` models the value of `s.now()` during this call and `genID`
models the random `newAlertID`. -/
def addRowsStep (cfg : AlertsConfig) (now : Int) (genID : String → String)
    (byVertex : String → Option vertexState) (row : AdjacencyRow) :
    (String → Option vertexState) × AdjacencyRow × List Alert :=
  if row.vertexID == "" then (byVertex, row, [])
  else
    let st0 := match byVertex row.vertexID with
      | some s => s
      | none => { rows := [], lastAlert := 0 }
    let row1 := if timeIsZero row.timestamp then { row with timestamp := now }
      else row
    let pruned := pruneRows cfg.window cfg.maxRows (st0.rows ++ [row1]) now
    let upd := fun st' : vertexState =>
      fun v => if v == row.vertexID then some st' else byVertex v
    if row1.ioaTags.isEmpty then
      (upd { st0 with rows := pruned }, row1, [])
    else
      let sres := scoreRows pruned
      if sres.1 < cfg.threshold then
        (upd { st0 with rows := pruned }, row1, [])
      else if !(timeIsZero st0.lastAlert) &&
          decide (row1.timestamp - st0.lastAlert < cfg.cooldown) then
        (upd { st0 with rows := pruned }, row1, [])
      else
        let alert : Alert :=
          { alertID := genID row.vertexID, vertexID := row.vertexID,
            score := sres.1, hostname := row1.hostname,
            agentID := row1.agentID,
            windowStart := row1.timestamp - cfg.window,
            windowEnd := row1.timestamp, ioaTags := sres.2.2,
            counts := sres.2.1,
            evidence := sampleEvidence pruned cfg.maxRows }
        (upd { rows := pruned, lastAlert := row1.timestamp }, row1, [alert])

/-- The row loop of `Scorer.AddRows`. -/
def addRowsLoop (cfg : AlertsConfig) (now : Int) (genID : String → String) :
    (String → Option vertexState) → List AdjacencyRow →
      (String → Option vertexState) × List AdjacencyRow × List Alert
  | bv, [] => (bv, [], [])
  | bv, r :: rest =>
      let step := addRowsStep cfg now genID bv r
      let recRes := addRowsLoop cfg now genID step.1 rest
      (recRes.1, step.2.1 :: recRes.2.1, step.2.2 ++ recRes.2.2)

/-- Model of `Scorer.AddRows` (internal/alerts): the middle component of
the result is the list of input rows as they stand after the call — Go
mutates the rows through their pointers. -/
def AddRows (cfg : AlertsConfig) (now : Int) (genID : String → String)
    (byVertex : String → Option vertexState) (rows : List AdjacencyRow) :
    (String → Option vertexState) × List AdjacencyRow × List Alert :=
  if rows.isEmpty then (byVertex, rows, [])
  else addRowsLoop cfg now genID byVertex rows

/-- The defaulted configuration produced by `NewScorer` with a zero
config: 5 min window, threshold 8, 50 rows, 2 min cooldown. -/
def defaultAlertsConfig : AlertsConfig :=
  { window := 300000000000, threshold := 8, maxRows := 50,
    cooldown := 120000000000 }

/-- A zero-timestamp row with a vertex id. -/
def exZeroTsRow : AdjacencyRow :=
  { timestamp := 0, recordType := "edge", rtype := "E",
    vertexID := "proc:h:v", adjacentID := "path:h:p", eventID := 11,
    hostname := "h", agentID := "ag", recordID := "9", ioaTags := [] }

/-- C9 (counterexample): `AddRows` mutates its input — a row whose
timestamp is zero has its timestamp overwritten with the scorer's
current clock, so the row list after the call differs from the input. -/
theorem AddRows_mutates_zero_ts_row :
    (AddRows defaultAlertsConfig (goUnix 50) (fun v => v)
        (fun _ => none) [exZeroTsRow]).2.1 ≠ [exZeroTsRow] ∧
    (AddRows defaultAlertsConfig (goUnix 50) (fun v => v)
        (fun _ => none) [exZeroTsRow]).2.1 =
      [{ exZeroTsRow with timestamp := goUnix 50 }] := by
  decide

theorem addRowsStep_row (cfg : AlertsConfig) (now : Int)
    (genID : String → String) (byVertex : String → Option vertexState)
    (row : AdjacencyRow) :
    (addRowsStep cfg now genID byVertex row).2.1 =
      if row.vertexID == "" then row
      else if timeIsZero row.timestamp then { row with timestamp := now }
      else row := by
  simp only [addRowsStep]
  split
  · rfl
  · split_ifs <;> rfl

theorem addRowsLoop_rows (cfg : AlertsConfig) (now : Int)
    (genID : String → String) :
    ∀ (rows : List AdjacencyRow) (bv : String → Option vertexState),
      (addRowsLoop cfg now genID bv rows).2.1 =
        rows.map (fun r =>
          if r.vertexID == "" then r
          else if timeIsZero r.timestamp then { r with timestamp := now }
          else r)
  | [], _ => rfl
  | r :: rest, bv => by
    simp only [addRowsLoop, List.map_cons]
    rw [addRowsStep_row, addRowsLoop_rows cfg now genID rest]

/-- C9 (amended): `AddRows` leaves every processed row unchanged except
that a row with a non-empty vertex id whose timestamp is zero gets its
timestamp overwritten with the current clock value; no other field of
any row is modified, and rows with a non-zero timestamp (or an empty
vertex id) are returned exactly as passed in. -/
theorem AddRows_row_mutation (cfg : AlertsConfig) (now : Int)
    (genID : String → String) (byVertex : String → Option vertexState)
    (rows : List AdjacencyRow) :
    (AddRows cfg now genID byVertex rows).2.1 =
      rows.map (fun r =>
        if r.vertexID == "" then r
        else if timeIsZero r.timestamp then { r with timestamp := now }
        else r) := by
  unfold AddRows
  split
  · next hnil =>
    rw [List.isEmpty_iff.mp hnil]
    rfl
  · exact addRowsLoop_rows cfg now genID rows byVertex

/-! ### Sysmon parser (claim C3) — `internal/transform/sysmon/parser.go`

The decoded JSON document (Go `map[string]interface{}` after
`json.Unmarshal`) is modelled by `JVal`: strings, integral numbers
(JSON numbers decode to `float64`; the integral ones are rendered with
`%d` by the coercions below, non-integral floats are outside the model),
nested objects, and an opaque `other` for booleans, arrays and null,
which the parser's `getString`/`getInt` skip. -/
inductive JVal where
  | str (s : String)
  | num (n : Int)
  | obj (fields : List (String × JVal))
  | other
deriving Repr, Inhabited

/-- First-match lookup in a decoded object (Go map access). -/
def lookupField : List (String × JVal) → String → Option JVal
  | [], _ => none
  | (k, v) :: rest, name => if k == name then some v else lookupField rest name

/-- Model of `getPath` (parser.go): walk a dotted path through nested
objects. -/
def getPath : JVal → List String → Option JVal
  | v, [] => some v
  | .obj fields, p :: rest =>
      match lookupField fields p with
      | some v => getPath v rest
      | none => none
  | _, _ :: _ => none

/-- String coercion of one JSON value as in the parser's `getString`
switch: strings and (integral) numbers; anything else has no case. -/
def goGetString1 : JVal → Option String
  | .str s => some s
  | .num n => some (toString n)
  | _ => none

/-- Model of `getString` (parser.go) over a list of dotted paths. -/
def getString (root : JVal) : List (List String) → String
  | [] => ""
  | p :: rest =>
      match getPath root p with
      | some v =>
          match goGetString1 v with
          | some s => s
          | none => getString root rest
      | none => getString root rest

/-- Model of `fmt.Sscanf(s, "%d", &v)`: an optionally signed decimal
prefix with at least one digit; trailing input is ignored. -/
def goParseIntScan (s : String) : Option Int :=
  let (neg, ds) : Bool × List Char :=
    match s.toList with
    | '-' :: rest => (true, rest)
    | '+' :: rest => (false, rest)
    | rest => (false, rest)
  let digits := ds.takeWhile (fun c => c.isDigit)
  if digits.isEmpty then none
  else
    let mag : Int := digits.foldl
      (fun acc c => acc * 10 + (Int.ofNat c.toNat - 48)) 0
    some (if neg then -mag else mag)

/-- Model of `getInt` (parser.go). -/
def getInt (root : JVal) : List (List String) → Int
  | [] => 0
  | p :: rest =>
      match getPath root p with
      | some (.num n) => n
      | some (.str s) =>
          if s == "" then getInt root rest
          else
            match goParseIntScan s with
            | some v => v
            | none => getInt root rest
      | some _ => getInt root rest
      | none => getInt root rest

/-! Calendar arithmetic for the time layouts. -/

/-- Days between a civil date and 1970-01-01 (proleptic Gregorian). -/
def daysFromCivil (y m d : Int) : Int :=
  let y1 := if m ≤ 2 then y - 1 else y
  let era := Int.fdiv y1 400
  let yoe := y1 - era * 400
  let mp := if m > 2 then m - 3 else m + 9
  let doy := Int.fdiv (153 * mp + 2) 5 + d - 1
  let doe := yoe * 365 + Int.fdiv yoe 4 - Int.fdiv yoe 100 + doy
  era * 146097 + doe - 719468

def isLeapYear (y : Int) : Bool :=
  (Int.emod y 4 == 0 && !(Int.emod y 100 == 0)) || Int.emod y 400 == 0

def daysInMonth (y m : Int) : Int :=
  if m = 1 ∨ m = 3 ∨ m = 5 ∨ m = 7 ∨ m = 8 ∨ m = 10 ∨ m = 12 then 31
  else if m = 4 ∨ m = 6 ∨ m = 9 ∨ m = 11 then 30
  else if m = 2 then (if isLeapYear y then 29 else 28)
  else 0

def readDigitsAux : Nat → Nat → List Char → Option (Nat × List Char)
  | 0, acc, cs => some (acc, cs)
  | n + 1, acc, cs =>
      match cs with
      | [] => none
      | c :: rest =>
          if c.isDigit then readDigitsAux n (acc * 10 + (c.toNat - 48)) rest
          else none

/-- Read exactly `n` decimal digits. -/
def readNDigits (n : Nat) (cs : List Char) : Option (Nat × List Char) :=
  readDigitsAux n 0 cs

def expectChar (c : Char) : List Char → Option (List Char)
  | [] => none
  | x :: rest => if x = c then some rest else none

/-- Greedily read decimal digits, returning their count and value. -/
def readFracDigits : List Char → Nat → Nat → Nat × Nat × List Char
  | [], k, v => (k, v, [])
  | c :: rest, k, v =>
      if c.isDigit then readFracDigits rest (k + 1) (v * 10 + (c.toNat - 48))
      else (k, v, c :: rest)

/-- Parse `YYYY-MM-DD`, validating the month and day ranges as
`time.Parse` does. -/
def parseDate (cs : List Char) : Option (Int × Int × Int × List Char) := do
  let (y, cs) ← readNDigits 4 cs
  let cs ← expectChar '-' cs
  let (mo, cs) ← readNDigits 2 cs
  let cs ← expectChar '-' cs
  let (d, cs) ← readNDigits 2 cs
  let yi : Int := Int.ofNat y
  let moi : Int := Int.ofNat mo
  let di : Int := Int.ofNat d
  if 1 ≤ moi ∧ moi ≤ 12 ∧ 1 ≤ di ∧ di ≤ daysInMonth yi moi then
    some (yi, moi, di, cs)
  else none

/-- Parse `HH:MM:SS` with range checks. -/
def parseClock (cs : List Char) : Option (Nat × Nat × Nat × List Char) := do
  let (h, cs) ← readNDigits 2 cs
  let cs ← expectChar ':' cs
  let (mi, cs) ← readNDigits 2 cs
  let cs ← expectChar ':' cs
  let (s, cs) ← readNDigits 2 cs
  if h ≤ 23 ∧ mi ≤ 59 ∧ s ≤ 59 then some (h, mi, s, cs) else none

/-- Parse the RFC 3339 zone suffix: `Z` or `±HH:MM`, as seconds east. -/
def parseZone : List Char → Option (Int × List Char)
  | 'Z' :: rest => some (0, rest)
  | '+' :: rest => parseZoneOffset 1 rest
  | '-' :: rest => parseZoneOffset (-1) rest
  | _ => none
where
  parseZoneOffset (sign : Int) (cs : List Char) : Option (Int × List Char) := do
    let (hh, cs) ← readNDigits 2 cs
    let cs ← expectChar ':' cs
    let (mm, cs) ← readNDigits 2 cs
    if hh ≤ 23 ∧ mm ≤ 59 then
      some (sign * (Int.ofNat hh * 3600 + Int.ofNat mm * 60), cs)
    else none

/-- Assemble an instant (nanoseconds since the Go zero time). -/
def civilToInstant (y mo d : Int) (h mi s ns : Nat) (offset : Int) : Int :=
  let unix := daysFromCivil y mo d * 86400 + Int.ofNat h * 3600 +
    Int.ofNat mi * 60 + Int.ofNat s - offset
  (unix + unixToInternal) * 1000000000 + Int.ofNat ns

/-- Model of `time.Parse(time.RFC3339Nano, s)` (which also subsumes the
plain RFC 3339 fallback): date `T` clock, an optional fraction of one to
nine digits, and a `Z` or numeric zone; nothing may follow. -/
def parseRFC3339Nano (s : String) : Option Int := do
  let (y, mo, d, cs) ← parseDate s.toList
  let cs ← expectChar 'T' cs
  let (h, mi, sec, cs) ← parseClock cs
  let (ns, cs) ←
    match cs with
    | '.' :: more =>
        let (k, v, rest) := readFracDigits more 0 0
        if 1 ≤ k ∧ k ≤ 9 then some (v * 10 ^ (9 - k), rest) else none
    | _ => some (0, cs)
  let (offset, cs) ← parseZone cs
  if cs.isEmpty then some (civilToInstant y mo d h mi sec ns offset)
  else none

/-- Model of the whitespace-separated UTC layouts of `parseUtcTime`
(parser.go): `2006-01-02 15:04:05` with an optional fraction of exactly
9, 7, 6 or 3 digits, interpreted in UTC. -/
def parseUtcSpaceLayout (s : String) : Option Int := do
  let (y, mo, d, cs) ← parseDate s.toList
  let cs ← expectChar ' ' cs
  let (h, mi, sec, cs) ← parseClock cs
  match cs with
  | [] => some (civilToInstant y mo d h mi sec 0 0)
  | '.' :: more =>
      let (k, v, rest) := readFracDigits more 0 0
      if (k = 9 ∨ k = 7 ∨ k = 6 ∨ k = 3) ∧ rest.isEmpty then
        some (civilToInstant y mo d h mi sec (v * 10 ^ (9 - k)) 0)
      else none
  | _ => none

/-- Model of `parseUtcTime` (parser.go). -/
def parseUtcTime (value : String) : Option Int :=
  let v := goTrimSpace value
  if v == "" then none
  else
    match parseRFC3339Nano v with
    | some t => some t
    | none => parseUtcSpaceLayout v

/-- Model of `models.Event` (the raw document back-pointer is not
carried). -/
structure Event where
  timestamp : Int
  eventID : Int
  agentID : String
  hostname : String
  channel : String
  recordID : String
  fields : List (String × JVal)
  ioaTags : List IoaTag
deriving Repr, Inhabited

/-- Placeholder for the `%v` rendering `Event.Field` gives to values that
are neither strings nor numbers (it is never the empty string). -/
def jvalFallbackString : String := "<value>"

/-- Model of `Event.Field` (pkg/models): string coercion of one event
data field. -/
def eventField (e : Event) (name : String) : String :=
  match lookupField e.fields name with
  | none => ""
  | some (.str s) => s
  | some (.num n) => toString n
  | some _ => jvalFallbackString

/-- Model of `sysmon.Parse` (parser.go, the `parseUtcTime` variant):
`@timestamp` is parsed first and `fields.UtcTime`, when present and
parseable, overrides it.  JSON decoding errors are outside the model:
the input is the decoded document. -/
def Parse (raw : JVal) : Event :=
  let ts0 : Int :=
    match getString raw [["@timestamp"]] with
    | "" => 0
    | s =>
        match parseRFC3339Nano s with
        | some t => t
        | none => 0
  let fields : List (String × JVal) :=
    match getPath raw ["winlog", "event_data"] with
    | some (.obj m) => m
    | _ => []
  let ts1 : Int :=
    match getString (JVal.obj fields) [["UtcTime"]] with
    | "" => ts0
    | u =>
        match parseUtcTime u with
        | some t => t
        | none => ts0
  { timestamp := ts1,
    eventID := getInt raw [["winlog", "event_id"], ["event", "code"],
      ["event_id"]],
    agentID := getString raw [["agent", "id"], ["agent_id"]],
    hostname := getString raw [["host", "name"], ["host", "hostname"],
      ["hostname"]],
    channel := getString raw [["winlog", "channel"]],
    recordID := getString raw [["winlog", "record_id"]],
    fields := fields,
    ioaTags := [] }

/-- The parser's own UtcTime extraction, used to state claim C3: the
parsed value of `fields.UtcTime` when present and parseable. -/
def utcTimeOf (raw : JVal) : Option Int :=
  let fields : List (String × JVal) :=
    match getPath raw ["winlog", "event_data"] with
    | some (.obj m) => m
    | _ => []
  match getString (JVal.obj fields) [["UtcTime"]] with
  | "" => none
  | u => parseUtcTime u

/-! ### Adjacency mapper (claim C3) — `internal/transform/adjacency` -/

/-- Model of `adjacency.MapperOptions` / the `Mapper` it configures.
`includeEdgeData` only affects the `Data` payload, which the row model
omits, so it is carried but unused. -/
structure MapperOptions where
  writeVertexRows : Bool
  includeEdgeData : Bool
deriving DecidableEq, Repr, Inhabited

/-- Model of `pickHost` (mapper). -/
def pickHostEvent (e : Event) : String :=
  if e.hostname ≠ "" then e.hostname else e.agentID

def processVertexID (host guid : String) : String :=
  if host == "" || guid == "" then ""
  else "proc:" ++ goToLower host ++ ":" ++ goToLower guid

def filePathVertexID (host path : String) : String :=
  if host == "" || path == "" then ""
  else "path:" ++ goToLower host ++ ":" ++ goToLower path

def domainVertexID (domain : String) : String :=
  if domain == "" then "" else "domain:" ++ goToLower domain

def networkVertexID (ip port : String) : String :=
  if port ≠ "" then "net:" ++ goToLower ip ++ ":" ++ port
  else "net:" ++ goToLower ip

/-- Model of `firstField`. -/
def firstField (e : Event) : List String → String
  | [] => ""
  | n :: rest => if eventField e n ≠ "" then eventField e n else firstField e rest

/-- Model of `baseRow` (the `Data` payload is omitted from the row
model; `vertexRow`/`edgeRow` below drop their data arguments
accordingly). -/
def baseRow (e : Event) (recordType rowType vertexID adjacentID : String) :
    AdjacencyRow :=
  { timestamp := e.timestamp,
    recordType := recordType,
    rtype := rowType,
    vertexID := vertexID,
    adjacentID := adjacentID,
    eventID := e.eventID,
    hostname := pickHostEvent e,
    agentID := e.agentID,
    recordID := e.recordID,
    ioaTags := [] }

def vertexRow (rowType vertexID : String) (e : Event) : AdjacencyRow :=
  baseRow e "vertex" rowType vertexID ""

def edgeRow (rowType vertexID adjacentID : String) (e : Event) : AdjacencyRow :=
  baseRow e "edge" rowType vertexID adjacentID

/-- Model of `processIDFromEvent`. -/
def processIDFromEvent (e : Event) : Option String :=
  let g0 := eventField e "ProcessGuid"
  let g := if g0 == "" then eventField e "SourceProcessGuid" else g0
  if g == "" then none else some (processVertexID (pickHostEvent e) g)

def mapProcessCreate (m : MapperOptions) (e : Event) : List AdjacencyRow :=
  let procGuid := eventField e "ProcessGuid"
  if procGuid == "" then []
  else
    let host := pickHostEvent e
    let procID := processVertexID host procGuid
    (if m.writeVertexRows then [vertexRow "ProcessVertex" procID e] else []) ++
    ((let parentGuid := eventField e "ParentProcessGuid"
      if parentGuid ≠ "" then
        let parentID := processVertexID host parentGuid
        (if m.writeVertexRows then [vertexRow "ProcessVertex" parentID e]
         else []) ++ [edgeRow "ParentOfEdge" parentID procID e]
      else []) ++
     (let image := eventField e "Image"
      if image ≠ "" then
        let pathID := filePathVertexID host image
        (if m.writeVertexRows then [vertexRow "FilePathVertex" pathID e]
         else []) ++ [edgeRow "ImageOfEdge" pathID procID e]
      else []))

def mapFileCreate (m : MapperOptions) (e : Event) : List AdjacencyRow :=
  match processIDFromEvent e with
  | none => []
  | some procID =>
      let target := firstField e ["TargetFilename", "TargetFileName",
        "TargetFilename", "Image"]
      if target == "" then []
      else
        let pathID := filePathVertexID (pickHostEvent e) target
        (if m.writeVertexRows then
           [vertexRow "ProcessVertex" procID e,
            vertexRow "FilePathVertex" pathID e]
         else []) ++ [edgeRow "CreatedFileEdge" procID pathID e]

def mapImageLoad (m : MapperOptions) (e : Event) : List AdjacencyRow :=
  match processIDFromEvent e with
  | none => []
  | some procID =>
      let imageLoaded := firstField e ["ImageLoaded", "ImageLoaded", "Image"]
      if imageLoaded == "" then []
      else
        let pathID := filePathVertexID (pickHostEvent e) imageLoaded
        (if m.writeVertexRows then
           [vertexRow "ProcessVertex" procID e,
            vertexRow "FilePathVertex" pathID e]
         else []) ++ [edgeRow "ImageLoadEdge" pathID procID e]

def mapNetworkConnect (m : MapperOptions) (e : Event) : List AdjacencyRow :=
  match processIDFromEvent e with
  | none => []
  | some procID =>
      let ip := firstField e ["DestinationIp", "DestinationIP", "DestinationIp"]
      let port := firstField e ["DestinationPort"]
      if ip == "" then []
      else
        let netID := networkVertexID ip port
        (if m.writeVertexRows then
           [vertexRow "ProcessVertex" procID e,
            vertexRow "NetworkVertex" netID e]
         else []) ++ [edgeRow "ConnectEdge" procID netID e]

def mapDNSQuery (m : MapperOptions) (e : Event) : List AdjacencyRow :=
  match processIDFromEvent e with
  | none => []
  | some procID =>
      let name := firstField e ["QueryName", "QueryName", "Query"]
      if name == "" then []
      else
        let domainID := domainVertexID name
        (if m.writeVertexRows then
           [vertexRow "ProcessVertex" procID e,
            vertexRow "DomainVertex" domainID e]
         else []) ++ [edgeRow "DNSQueryEdge" procID domainID e]

def mapRemoteThread (m : MapperOptions) (e : Event) : List AdjacencyRow :=
  let sourceID := processVertexID (pickHostEvent e)
    (eventField e "SourceProcessGuid")
  let targetID := processVertexID (pickHostEvent e)
    (eventField e "TargetProcessGuid")
  if sourceID == "" || targetID == "" then []
  else
    (if m.writeVertexRows then
       [vertexRow "ProcessVertex" sourceID e,
        vertexRow "ProcessVertex" targetID e]
     else []) ++ [edgeRow "RemoteThreadEdge" sourceID targetID e]

def mapProcessAccess (m : MapperOptions) (e : Event) : List AdjacencyRow :=
  let sourceID := processVertexID (pickHostEvent e)
    (eventField e "SourceProcessGuid")
  let targetID := processVertexID (pickHostEvent e)
    (eventField e "TargetProcessGuid")
  if sourceID == "" || targetID == "" then []
  else
    (if m.writeVertexRows then
       [vertexRow "ProcessVertex" sourceID e,
        vertexRow "ProcessVertex" targetID e]
     else []) ++ [edgeRow "ProcessAccessEdge" sourceID targetID e]

/-- Model of `attachIOATags`: edge rows get the event's tags, vertex
rows are untouched. -/
def attachIOATags (rows : List AdjacencyRow) (tags : List IoaTag) :
    List AdjacencyRow :=
  if rows.isEmpty || tags.isEmpty then rows
  else rows.map (fun r =>
    if r.recordType == "edge" then { r with ioaTags := tags } else r)

/-- The event-id dispatch of `Mapper.Map`. -/
def mapDispatch (m : MapperOptions) (e : Event) : List AdjacencyRow :=
  if e.eventID = 1 then mapProcessCreate m e
  else if e.eventID = 3 then mapNetworkConnect m e
  else if e.eventID = 7 then mapImageLoad m e
  else if e.eventID = 8 then mapRemoteThread m e
  else if e.eventID = 10 then mapProcessAccess m e
  else if e.eventID = 11 then mapFileCreate m e
  else if e.eventID = 22 then mapDNSQuery m e
  else []

/-- Model of `Mapper.Map` (a nil event is outside the model). -/
def Map (m : MapperOptions) (e : Event) : List AdjacencyRow :=
  if timeIsZero e.timestamp then []
  else if e.ioaTags.isEmpty then mapDispatch m e
  else attachIOATags (mapDispatch m e) e.ioaTags

/-- A decoded event document whose `winlog.event_data.UtcTime` is present
but unparseable while `@timestamp` is valid: a Sysmon network-connect
(event id 3) with a process guid and a destination ip. -/
def exRaw : JVal := .obj [
  ("@timestamp", .str "2024-01-02T03:04:05Z"),
  ("winlog", .obj [
    ("event_id", .str "3"),
    ("record_id", .str "42"),
    ("event_data", .obj [
      ("ProcessGuid", .str "G-1"),
      ("DestinationIp", .str "10.0.0.1"),
      ("UtcTime", .str "not-a-time")])]),
  ("host", .obj [("name", .str "H1")]),
  ("agent", .obj [("id", .str "A1")])]

/-- A decoded event document with a parseable `UtcTime` (space layout,
millisecond fraction). -/
def exRawGood : JVal := .obj [
  ("@timestamp", .str "2024-01-02T03:04:05Z"),
  ("winlog", .obj [
    ("event_id", .num 1),
    ("event_data", .obj [
      ("ProcessGuid", .str "G-2"),
      ("Image", .str "C:\\x.exe"),
      ("UtcTime", .str "2024-01-02 03:04:06.123")])]),
  ("host", .obj [("name", .str "H1")])]

/-- C3 (counterexample): an event whose `UtcTime` is present but
unparseable does NOT produce zero adjacency rows: the parser falls back
to the already-parsed `@timestamp`, the timestamp is nonzero, and the
mapper emits one ConnectEdge row.  This refutes both "missing/unparseable
UtcTime produces zero rows" and "unparseable UtcTime leaves ts zero". -/
theorem Parse_Map_utc_fallback_counterexample :
    getString (JVal.obj (Parse exRaw).fields) [["UtcTime"]] = "not-a-time" ∧
    parseUtcTime "not-a-time" = none ∧
    timeIsZero (Parse exRaw).timestamp = false ∧
    (Map { writeVertexRows := false, includeEdgeData := false }
      (Parse exRaw)).length = 1 := by decide

theorem mem_optPair_append {wv : Bool} {a b c r : AdjacencyRow}
    (hr : r ∈ (if wv then [a, b] else []) ++ [c]) : r = a ∨ r = b ∨ r = c := by
  rcases List.mem_append.mp hr with h | h
  · split at h
    · rcases List.mem_cons.mp h with h | h
      · exact Or.inl h
      · exact Or.inr (Or.inl (List.mem_singleton.mp h))
    · cases h
  · exact Or.inr (Or.inr (List.mem_singleton.mp h))

theorem mapProcessCreate_ts (m : MapperOptions) (e : Event) :
    ∀ r ∈ mapProcessCreate m e, r.timestamp = e.timestamp := by
  intro r hr
  simp only [mapProcessCreate] at hr
  split at hr
  · cases hr
  · rcases List.mem_append.mp hr with h | h
    · split at h
      · have h2 := List.mem_singleton.mp h; subst h2; rfl
      · cases h
    · rcases List.mem_append.mp h with h | h
      · split at h
        · rcases List.mem_append.mp h with h | h
          · split at h
            · have h2 := List.mem_singleton.mp h; subst h2; rfl
            · cases h
          · have h2 := List.mem_singleton.mp h; subst h2; rfl
        · cases h
      · split at h
        · rcases List.mem_append.mp h with h | h
          · split at h
            · have h2 := List.mem_singleton.mp h; subst h2; rfl
            · cases h
          · have h2 := List.mem_singleton.mp h; subst h2; rfl
        · cases h

theorem mapFileCreate_ts (m : MapperOptions) (e : Event) :
    ∀ r ∈ mapFileCreate m e, r.timestamp = e.timestamp := by
  intro r hr
  simp only [mapFileCreate] at hr
  split at hr
  · cases hr
  · split at hr
    · cases hr
    · rcases mem_optPair_append hr with h | h | h <;> subst h <;> rfl

theorem mapImageLoad_ts (m : MapperOptions) (e : Event) :
    ∀ r ∈ mapImageLoad m e, r.timestamp = e.timestamp := by
  intro r hr
  simp only [mapImageLoad] at hr
  split at hr
  · cases hr
  · split at hr
    · cases hr
    · rcases mem_optPair_append hr with h | h | h <;> subst h <;> rfl

theorem mapNetworkConnect_ts (m : MapperOptions) (e : Event) :
    ∀ r ∈ mapNetworkConnect m e, r.timestamp = e.timestamp := by
  intro r hr
  simp only [mapNetworkConnect] at hr
  split at hr
  · cases hr
  · split at hr
    · cases hr
    · rcases mem_optPair_append hr with h | h | h <;> subst h <;> rfl

theorem mapDNSQuery_ts (m : MapperOptions) (e : Event) :
    ∀ r ∈ mapDNSQuery m e, r.timestamp = e.timestamp := by
  intro r hr
  simp only [mapDNSQuery] at hr
  split at hr
  · cases hr
  · split at hr
    · cases hr
    · rcases mem_optPair_append hr with h | h | h <;> subst h <;> rfl

theorem mapRemoteThread_ts (m : MapperOptions) (e : Event) :
    ∀ r ∈ mapRemoteThread m e, r.timestamp = e.timestamp := by
  intro r hr
  simp only [mapRemoteThread] at hr
  split at hr
  · cases hr
  · rcases mem_optPair_append hr with h | h | h <;> subst h <;> rfl

theorem mapProcessAccess_ts (m : MapperOptions) (e : Event) :
    ∀ r ∈ mapProcessAccess m e, r.timestamp = e.timestamp := by
  intro r hr
  simp only [mapProcessAccess] at hr
  split at hr
  · cases hr
  · rcases mem_optPair_append hr with h | h | h <;> subst h <;> rfl

theorem mapDispatch_ts (m : MapperOptions) (e : Event) :
    ∀ r ∈ mapDispatch m e, r.timestamp = e.timestamp := by
  intro r hr
  simp only [mapDispatch] at hr
  split_ifs at hr
  · exact mapProcessCreate_ts m e r hr
  · exact mapNetworkConnect_ts m e r hr
  · exact mapImageLoad_ts m e r hr
  · exact mapRemoteThread_ts m e r hr
  · exact mapProcessAccess_ts m e r hr
  · exact mapFileCreate_ts m e r hr
  · exact mapDNSQuery_ts m e r hr
  · cases hr

theorem attachIOATags_ts {t : Int} (rows : List AdjacencyRow)
    (tags : List IoaTag) (h : ∀ r ∈ rows, r.timestamp = t) :
    ∀ r ∈ attachIOATags rows tags, r.timestamp = t := by
  intro r hr
  simp only [attachIOATags] at hr
  split at hr
  · exact h r hr
  · obtain ⟨r0, hr0, rfl⟩ := List.mem_map.mp hr
    split
    · exact h r0 hr0
    · exact h r0 hr0

/-- C3 (amended): what the parser and mapper actually guarantee about
timestamps: (1) when `winlog.event_data.UtcTime` is present and
parseable, the parsed event's timestamp equals its parsed value (when it
is absent or unparseable the parser falls back to `@timestamp` rather
than leaving the timestamp zero); (2) the mapper emits zero rows for an
event whose timestamp is zero; (3) every row the mapper emits carries
the event's timestamp. -/
theorem Parse_Map_timestamp (raw : JVal) (m : MapperOptions) (e : Event) :
    (∀ t, utcTimeOf raw = some t → (Parse raw).timestamp = t) ∧
    (timeIsZero e.timestamp = true → Map m e = []) ∧
    (∀ r ∈ Map m e, r.timestamp = e.timestamp) := by
  refine ⟨?_, ?_, ?_⟩
  · intro t ht
    simp only [utcTimeOf] at ht
    simp only [Parse]
    split at ht
    · exact Option.noConfusion ht
    · rw [ht]
  · intro hz
    simp [Map, hz]
  · intro r hr
    simp only [Map] at hr
    split at hr
    · cases hr
    · split at hr
      · exact mapDispatch_ts m e r hr
      · exact attachIOATags_ts _ _ (mapDispatch_ts m e) r hr

theorem Parse_Map_timestamp_witness :
    (Parse exRawGood).timestamp = goUnix 1704164646 + 123000000 ∧
    Map { writeVertexRows := false, includeEdgeData := false }
      (Parse (JVal.obj [])) = [] := by
  constructor
  · exact (Parse_Map_timestamp exRawGood
      { writeVertexRows := false, includeEdgeData := false }
      (Parse exRawGood)).1 (goUnix 1704164646 + 123000000) (by decide)
  · exact (Parse_Map_timestamp (JVal.obj [])
      { writeVertexRows := false, includeEdgeData := false }
      (Parse (JVal.obj []))).2.1 (by decide)

end ThreatGraph
